import Mathlib

/-!
# tcp-server: proof-of-work protected quote service

A shallow embedding of the Go packages `pkg/hashcash`, `internal/domain` and
`internal/server`, and theorems about them.

Conventions of the embedding.

* A Go `string` is a Lean `String`; `len`, slicing and hashing go through its UTF-8
  bytes (`bytes`).  Strings are therefore well-formed UTF-8.
* Go `int` and `int64` are 64 bits wide; they are `Int` here and the one increment of
  the program (`d.Counter++`) wraps explicitly (`wrapInt64`).
* A Go function that can panic or loop returns an `Outcome`; loops take fuel.
* A mutated receiver is returned as a new value.
* Calls into `encoding/json` and the case-folding table of package `unicode` are
  parameters (`JSON`, `SimpleFold`); SHA-1, base64, `strconv.Atoi`, `%d`,
  `strings.TrimSpace` and `strings.Split` are written out.
-/

set_option maxRecDepth 100000

namespace TcpServer

/-! ## Go runtime -/

/-- A Go string type alias, usable where the name `String` is shadowed. -/
abbrev Str := String

/-- Result of running Go code: it returns, panics, or the model runs out of fuel. -/
inductive Outcome (α : Type) where
  | ret (a : α)
  | panic
  | outOfFuel
deriving DecidableEq, Repr

/-- Go error values: `errors.New(msg)` / `fmt.Errorf(msg)`, and `fmt.Errorf(ctx + "%w", err)`. -/
inductive Error where
  | New (msg : String)
  | Errorf (ctx : String) (err : Error)
deriving DecidableEq, Repr

deriving instance DecidableEq for Except

def minInt64 : Int := -(2 ^ 63)

def maxInt64 : Int := 2 ^ 63 - 1

/-- Two's-complement wrap-around of a 64-bit signed integer. -/
def wrapInt64 (x : Int) : Int := (x + 2 ^ 63) % 2 ^ 64 - 2 ^ 63

/-- UTF-8 encoding of one code point, as byte values. -/
def utf8EncodeChar (c : Char) : List Nat :=
  let v := c.toNat
  if v < 0x80 then [v]
  else if v < 0x800 then [0xC0 + v / 0x40, 0x80 + v % 0x40]
  else if v < 0x10000 then [0xE0 + v / 0x1000, 0x80 + v / 0x40 % 0x40, 0x80 + v % 0x40]
  else [0xF0 + v / 0x40000, 0x80 + v / 0x1000 % 0x40, 0x80 + v / 0x40 % 0x40, 0x80 + v % 0x40]

/-- Bytes of a Go string: `[]byte(s)`. -/
def bytes (s : String) : List Nat := s.toList.flatMap utf8EncodeChar

/-- Go `len(s)` for a string: its number of bytes. -/
def len (s : String) : Nat := (bytes s).length

/-- The Unicode replacement character, `utf8.RuneError`. -/
def RuneError : Nat := 0xFFFD

/-- Continuation byte test: `0x80 <= b <= 0xBF`. -/
def isCont (b : Nat) : Bool := 0x80 ≤ b && b ≤ 0xBF

/-- Go `utf8.DecodeRune`: the first rune of a byte sequence and its width in bytes;
an invalid or truncated encoding yields `RuneError` with width 1. -/
def decodeRune : List Nat → Nat × Nat
  | [] => (RuneError, 0)
  | b0 :: rest =>
    if b0 < 0x80 then (b0, 1)
    else if 0xC2 ≤ b0 && b0 ≤ 0xDF then
      match rest with
      | b1 :: _ => if isCont b1 then ((b0 % 0x20) * 0x40 + b1 % 0x40, 2) else (RuneError, 1)
      | _ => (RuneError, 1)
    else if 0xE0 ≤ b0 && b0 ≤ 0xEF then
      match rest with
      | b1 :: b2 :: _ =>
        let lo := if b0 = 0xE0 then 0xA0 else 0x80
        let hi := if b0 = 0xED then 0x9F else 0xBF
        if lo ≤ b1 && b1 ≤ hi && isCont b2 then
          ((b0 % 0x10) * 0x1000 + (b1 % 0x40) * 0x40 + b2 % 0x40, 3)
        else (RuneError, 1)
      | _ => (RuneError, 1)
    else if 0xF0 ≤ b0 && b0 ≤ 0xF4 then
      match rest with
      | b1 :: b2 :: b3 :: _ =>
        let lo := if b0 = 0xF0 then 0x90 else 0x80
        let hi := if b0 = 0xF4 then 0x8F else 0xBF
        if lo ≤ b1 && b1 ≤ hi && isCont b2 && isCont b3 then
          ((b0 % 0x08) * 0x40000 + (b1 % 0x40) * 0x1000 + (b2 % 0x40) * 0x40 + b3 % 0x40, 4)
        else (RuneError, 1)
      | _ => (RuneError, 1)
    else (RuneError, 1)

/-- Decimal digit character of `n < 10`. -/
def digitChar (n : Nat) : Char := Char.ofNat (48 + n)

/-- Decimal digits of `n`, most significant first, prepended to `acc`. -/
def formatNatAux : Nat → Nat → List Char → List Char
  | 0, _, acc => acc
  | fuel + 1, n, acc =>
    if n < 10 then digitChar n :: acc
    else formatNatAux fuel (n / 10) (digitChar (n % 10) :: acc)

/-- Go `%d` of a non-negative integer. -/
def formatNat (n : Nat) : String := String.mk (formatNatAux (n + 1) n [])

/-- Go `%d` of a signed integer. -/
def formatInt : Int → String
  | Int.ofNat n => formatNat n
  | Int.negSucc n => "-" ++ formatNat (n + 1)

/-! ### crypto/sha1 -/

def w32 : Nat := 2 ^ 32

/-- Rotate a 32-bit word left by `k` bits. -/
def rotl (k x : Nat) : Nat := (x * 2 ^ k % w32) ||| (x / 2 ^ (32 - k))

/-- Big-endian bytes of `x`, `n` of them. -/
def beBytes : Nat → Nat → List Nat
  | 0, _ => []
  | n + 1, x => x / 256 ^ n % 256 :: beBytes n x

/-- SHA-1 padding: `0x80`, zeros up to 56 modulo 64, then the bit length on 8 bytes. -/
def sha1Pad (msg : List Nat) : List Nat :=
  let l := msg.length
  msg ++ 0x80 :: List.replicate ((119 - l % 64) % 64) 0 ++ beBytes 8 (8 * l)

/-- Read big-endian 32-bit words. -/
def beWords : List Nat → List Nat
  | a :: b :: c :: d :: rest => (((a * 256 + b) * 256 + c) * 256 + d) :: beWords rest
  | _ => []

/-- Message schedule: `ws` holds the words computed so far, most recent first. -/
def sha1Schedule : Nat → List Nat → List Nat
  | 0, ws => ws
  | n + 1, ws =>
    let w := rotl 1 (ws.getD 2 0 ^^^ ws.getD 7 0 ^^^ ws.getD 13 0 ^^^ ws.getD 15 0)
    sha1Schedule n (w :: ws)

/-- The five working words of SHA-1. -/
structure Sha1State where
  a : Nat
  b : Nat
  c : Nat
  d : Nat
  e : Nat
deriving DecidableEq, Repr

def sha1Init : Sha1State := ⟨0x67452301, 0xEFCDAB89, 0x98BADCFE, 0x10325476, 0xC3D2E1F0⟩

def sha1F (t b c d : Nat) : Nat :=
  if t < 20 then (b &&& c) ||| ((b ^^^ (w32 - 1)) &&& d)
  else if t < 40 then b ^^^ c ^^^ d
  else if t < 60 then (b &&& c) ||| (b &&& d) ||| (c &&& d)
  else b ^^^ c ^^^ d

def sha1K (t : Nat) : Nat :=
  if t < 20 then 0x5A827999
  else if t < 40 then 0x6ED9EBA1
  else if t < 60 then 0x8F1BBCDC
  else 0xCA62C1D6

/-- The rounds over the schedule `ws`, round index `t` counting up. -/
def sha1Rounds : Nat → List Nat → Sha1State → Sha1State
  | _, [], s => s
  | t, w :: ws, s =>
    let tmp := (rotl 5 s.a + sha1F t s.b s.c s.d + s.e + sha1K t + w) % w32
    sha1Rounds (t + 1) ws ⟨tmp, s.a, rotl 30 s.b, s.c, s.d⟩

/-- Compression of one 64-byte block. -/
def sha1Block (h : Sha1State) (block : List Nat) : Sha1State :=
  let ws := (sha1Schedule 64 (beWords block).reverse).reverse
  let r := sha1Rounds 0 ws h
  ⟨(h.a + r.a) % w32, (h.b + r.b) % w32, (h.c + r.c) % w32, (h.d + r.d) % w32,
    (h.e + r.e) % w32⟩

/-- Fold the compression function over `n` blocks. -/
def sha1Blocks : Nat → Sha1State → List Nat → Sha1State
  | 0, h, _ => h
  | n + 1, h, bs => sha1Blocks n (sha1Block h (bs.take 64)) (bs.drop 64)

/-- The 20-byte SHA-1 digest: `h := sha1.New(); h.Write(msg); h.Sum(nil)`. -/
def sha1Sum (msg : List Nat) : List Nat :=
  let p := sha1Pad msg
  let h := sha1Blocks (p.length / 64) sha1Init p
  beBytes 4 h.a ++ beBytes 4 h.b ++ beBytes 4 h.c ++ beBytes 4 h.d ++ beBytes 4 h.e

def hexDigit (n : Nat) : Char := if n < 10 then Char.ofNat (48 + n) else Char.ofNat (87 + n)

/-- Go `fmt.Sprintf("%x", bs)`: two lower-case hexadecimal digits per byte. -/
def hex (bs : List Nat) : String :=
  String.mk (bs.flatMap fun b => [hexDigit (b / 16), hexDigit (b % 16)])

/-! ## Package hashcash -/

namespace hashcash

def errMaxIterationsExceeded : Error := Error.New "max iterations exceeded"

/-- Data - struct with fields of Hashcash. -/
structure Data where
  ZerosCount : Int
  Date : Int
  Client : String
  Rand : String
  Counter : Int
deriving DecidableEq, Repr

/-- `fmt.Sprintf("%d:%d:%s:%s:%d", d.ZerosCount, d.Date, d.Client, d.Rand, d.Counter)`. -/
def Data.String (d : Data) : Str :=
  formatInt d.ZerosCount ++ ":" ++ formatInt d.Date ++ ":" ++ d.Client ++ ":" ++ d.Rand ++ ":"
    ++ formatInt d.Counter

def sha1Hash (data : String) : String := hex (sha1Sum (bytes data))

/-- The loop `for _, ch := range s { if ch != 48 { return false } }; return true` over the
bytes `bs` of `s`. -/
def rangeAllZero : Nat → List Nat → Bool
  | 0, _ => true
  | _ + 1, [] => true
  | fuel + 1, b :: bs =>
    let rw := decodeRune (b :: bs)
    if rw.1 ≠ 48 then false else rangeAllZero fuel ((b :: bs).drop rw.2)

/-- The function `isHashCorrect`; the slice `hash[:zerosCount]` panics when the bound is negative. -/
def isHashCorrect (hash : String) (zerosCount : Int) : Outcome Bool :=
  if zerosCount > (len hash : Int) then .ret false
  else if zerosCount < 0 then .panic
  else .ret (rangeAllZero zerosCount.toNat ((bytes hash).take zerosCount.toNat))

/-- ComputeHashcash - calculates correct hashcash by bruteforce. One unit of fuel per
evaluation of the loop condition. -/
def Data.ComputeHashcash : Nat → Data → Int → Outcome (Data × Option Error)
  | 0, _, _ => .outOfFuel
  | fuel + 1, d, maxIterations =>
    if d.Counter ≤ maxIterations ∨ maxIterations ≤ 0 then
      match isHashCorrect (sha1Hash d.String) d.ZerosCount with
      | .ret true => .ret (d, none)
      | .ret false =>
        Data.ComputeHashcash fuel { d with Counter := wrapInt64 (d.Counter + 1) } maxIterations
      | .panic => .panic
      | .outOfFuel => .outOfFuel
    else .ret (d, some errMaxIterationsExceeded)

/-- The hash of challenge `d` taken at counter `c` passes `isHashCorrect` for `d.ZerosCount`. -/
def qualifies (d : Data) (c : Int) : Prop :=
  isHashCorrect (sha1Hash ({ d with Counter := c }).String) d.ZerosCount = .ret true

instance (d : Data) (c : Int) : Decidable (qualifies d c) := by
  unfold qualifies; infer_instance

end hashcash


/-! ## Packages strings and unicode -/

/-- Go `unicode.IsSpace`: the Latin-1 white space and the `White_Space` property beyond it. -/
def isSpace (c : Char) : Bool :=
  let r := c.toNat
  if r ≤ 0xFF then
    r = 0x09 || r = 0x0A || r = 0x0B || r = 0x0C || r = 0x0D || r = 0x20 || r = 0x85 || r = 0xA0
  else
    r = 0x1680 || (0x2000 ≤ r && r ≤ 0x200A) || r = 0x2028 || r = 0x2029 || r = 0x202F
      || r = 0x205F || r = 0x3000

/-- Go `strings.TrimSpace`: the string without its leading and trailing white space. -/
def TrimSpace (s : String) : String :=
  String.mk ((s.toList.dropWhile isSpace).reverse.dropWhile isSpace).reverse

/-- The pieces of `cs` between occurrences of `sep`. -/
def splitChars (sep : Char) : List Char → List (List Char)
  | [] => [[]]
  | c :: cs =>
    if c = sep then [] :: splitChars sep cs
    else
      match splitChars sep cs with
      | [] => [[c]]
      | p :: ps => (c :: p) :: ps

/-- Go `strings.Split(s, sep)` for a one-character separator. -/
def Split (s : String) (sep : Char) : List String :=
  (splitChars sep s.toList).map String.mk

/-- The inner loop of `strings.EqualFold`:
`r := unicode.SimpleFold(sr); for r != sr && r < tr { r = unicode.SimpleFold(r) }`,
started at `r`. -/
def foldLoop (SimpleFold : Nat → Nat) (sr tr : Nat) : Nat → Nat → Nat
  | 0, r => r
  | fuel + 1, r => if r ≠ sr ∧ r < tr then foldLoop SimpleFold sr tr fuel (SimpleFold r) else r

/-- One step of `strings.EqualFold`: whether the runes `sr` and `tr` are equal under simple
case folding. -/
def runeEqualFold (SimpleFold : Nat → Nat) (sr tr : Nat) : Bool :=
  if tr = sr then true
  else
    let lo := if tr < sr then tr else sr
    let hi := if tr < sr then sr else tr
    if hi < 0x80 then
      decide (0x41 ≤ lo ∧ lo ≤ 0x5A ∧ hi = lo + 0x20)
    else
      decide (foldLoop SimpleFold lo hi 0x110000 (SimpleFold lo) = hi)

/-- Rune-by-rune comparison of `strings.EqualFold`. -/
def equalFoldChars (SimpleFold : Nat → Nat) : List Char → List Char → Bool
  | [], [] => true
  | s :: ss, t :: ts =>
    runeEqualFold SimpleFold s.toNat t.toNat && equalFoldChars SimpleFold ss ts
  | _, _ => false

/-- Go `strings.EqualFold`: equality under simple Unicode case folding, the folding table
`unicode.SimpleFold` being a parameter. -/
def EqualFold (SimpleFold : Nat → Nat) (s t : String) : Bool :=
  equalFoldChars SimpleFold s.toList t.toList

/-- The orbits of `unicode.SimpleFold` that contain an ASCII letter: upper and lower case,
with the Kelvin sign in the orbit of k and the long s in the orbit of s; every other code
point is left fixed.  It serves to evaluate examples. -/
def simpleFoldASCII (r : Nat) : Nat :=
  if r = 0x4B then 0x6B
  else if r = 0x6B then 0x212A
  else if r = 0x212A then 0x4B
  else if r = 0x53 then 0x73
  else if r = 0x73 then 0x17F
  else if r = 0x17F then 0x53
  else if 0x41 ≤ r ∧ r ≤ 0x5A then r + 0x20
  else if 0x61 ≤ r ∧ r ≤ 0x7A then r - 0x20
  else r

/-! ## Package domain -/

namespace domain

/-- MessageTypeQuit - quit message type. -/
def MessageTypeQuit : String := "quit"

/-- MessageTypeRequestChallenge - request challenge message type (client -> server). -/
def MessageTypeRequestChallenge : String := "request_challenge"

/-- MessageTypeResponseChallenge - response challenge message type (server -> client). -/
def MessageTypeResponseChallenge : String := "response_challenge"

/-- MessageTypeRequestResource - request resource message type (client -> server). -/
def MessageTypeRequestResource : String := "request_resource"

/-- MessageTypeResponseSource - response source message type (server -> client). -/
def MessageTypeResponseSource : String := "response_source"

/-- Message - message struct for both server and client (field `Typ` is Go `Type`). -/
structure Message where
  Typ : String
  Payload : String
deriving DecidableEq, Repr

def isMsgTypeValid (SimpleFold : Nat → Nat) (msgType : String) : Bool :=
  if !EqualFold SimpleFold msgType MessageTypeQuit &&
      !EqualFold SimpleFold msgType MessageTypeRequestChallenge &&
      !EqualFold SimpleFold msgType MessageTypeResponseChallenge &&
      !EqualFold SimpleFold msgType MessageTypeRequestResource &&
      !EqualFold SimpleFold msgType MessageTypeResponseSource then
    false
  else true

/-- String - stringify message to send it by tcp-connection: `fmt.Sprintf("%s|%s\n", ...)`. -/
def Message.String (m : Message) : Str := m.Typ ++ "|" ++ m.Payload ++ "\n"

/-- ParseMessage - parses Message from str, checks type and payload.  The result is the Go
pair `(*Message, error)`; `parts[0]` and `parts[1]` are within bounds where they are read. -/
def ParseMessage (SimpleFold : Nat → Nat) (str : String) : Option Message × Option Error :=
  let str := TrimSpace str
  let parts := Split str '|'
  if parts.length < 1 ∨ parts.length > 2 then (none, some (Error.New "invalid format"))
  else if !isMsgTypeValid SimpleFold (parts.getD 0 "") then
    (none, some (Error.New "invalid type"))
  else
    let msg : Message := { Typ := parts.getD 0 "", Payload := "" }
    let msg := if parts.length = 2 then { msg with Payload := parts.getD 1 "" } else msg
    (some msg, none)

/-- The five message types, in the order `isMsgTypeValid` tries them. -/
def knownTypes : List String :=
  [MessageTypeQuit, MessageTypeRequestChallenge, MessageTypeResponseChallenge,
    MessageTypeRequestResource, MessageTypeResponseSource]

/-- ASCII lower-casing of a string. -/
def lowerCase (s : String) : String := String.mk (s.toList.map Char.toLower)

end domain

/-! ## Packages encoding/base64 and strconv -/

/-- The alphabet of `base64.StdEncoding`. -/
def base64Alphabet : List Char :=
  "ABCDEFGHIJKLMNOPQRSTUVWXYZabcdefghijklmnopqrstuvwxyz0123456789+/".toList

/-- The character that encodes the 6-bit value `n`. -/
def base64Char (n : Nat) : Char := base64Alphabet.getD n 'A'

/-- The 6-bit value encoded by the byte `b`, if `b` is in the alphabet. -/
def base64Value (b : Nat) : Option Nat :=
  if 0x41 ≤ b ∧ b ≤ 0x5A then some (b - 0x41)
  else if 0x61 ≤ b ∧ b ≤ 0x7A then some (b - 0x61 + 26)
  else if 0x30 ≤ b ∧ b ≤ 0x39 then some (b - 0x30 + 52)
  else if b = 0x2B then some 62
  else if b = 0x2F then some 63
  else none

/-- Characters of the padded base64 encoding of a byte sequence. -/
def encodeQuanta : List Nat → List Char
  | [] => []
  | [a] => [base64Char (a / 4), base64Char (a % 4 * 16), '=', '=']
  | [a, b] => [base64Char (a / 4), base64Char (a % 4 * 16 + b / 16), base64Char (b % 16 * 4), '=']
  | a :: b :: c :: rest =>
    base64Char (a / 4) :: base64Char (a % 4 * 16 + b / 16) :: base64Char (b % 16 * 4 + c / 64)
      :: base64Char (c % 64) :: encodeQuanta rest

/-- Go `base64.StdEncoding.EncodeToString`. -/
def EncodeToString (src : List Nat) : String := String.mk (encodeQuanta src)

/-- Decoding of the 4-byte quanta of a padded base64 text; padding (`=`, byte 0x3D) may only
end the last quantum. -/
def decodeQuanta : List Nat → Option (List Nat)
  | [] => some []
  | a :: b :: c :: d :: rest =>
    if c = 0x3D ∧ d = 0x3D ∧ rest = [] then
      match base64Value a, base64Value b with
      | some x, some y => some [x * 4 + y / 16]
      | _, _ => none
    else if d = 0x3D ∧ rest = [] then
      match base64Value a, base64Value b, base64Value c with
      | some x, some y, some z => some [x * 4 + y / 16, y % 16 * 16 + z / 4]
      | _, _, _ => none
    else
      match base64Value a, base64Value b, base64Value c, base64Value d, decodeQuanta rest with
      | some x, some y, some z, some w, some r =>
        some ((x * 4 + y / 16) :: (y % 16 * 16 + z / 4) :: (z % 4 * 64 + w) :: r)
      | _, _, _, _, _ => none
  | _ => none

/-- Go `base64.StdEncoding.DecodeString`: carriage returns and newlines are skipped, the
rest must be padded quanta of the alphabet. -/
def DecodeString (s : String) : Except Error (List Nat) :=
  match decodeQuanta ((bytes s).filter fun b => b ≠ 0x0D ∧ b ≠ 0x0A) with
  | some bs => .ok bs
  | none => .error (Error.New "illegal base64 data")

/-- Value of a sequence of ASCII decimal digits, continuing from `acc`. -/
def parseDigits : List Nat → Nat → Option Nat
  | [], acc => some acc
  | b :: bs, acc => if 0x30 ≤ b ∧ b ≤ 0x39 then parseDigits bs (acc * 10 + (b - 0x30)) else none

/-- Go `strconv.Atoi`, on the bytes of its argument: an optional sign and at least one
decimal digit, the value within the range of `int`. -/
def Atoi (s : List Nat) : Except Error Int :=
  let body := match s with
    | 0x2B :: t => t
    | 0x2D :: t => t
    | t => t
  let neg := s.head? = some 0x2D
  if body = [] then .error (Error.New "strconv.Atoi: invalid syntax")
  else
    match parseDigits body 0 with
    | none => .error (Error.New "strconv.Atoi: invalid syntax")
    | some n =>
      let v : Int := if neg then -(n : Int) else (n : Int)
      if minInt64 ≤ v ∧ v ≤ maxInt64 then .ok v
      else .error (Error.New "strconv.Atoi: value out of range")

/-! ## Package encoding/json -/

/-- The two functions of `encoding/json` the server calls, at the type `hashcash.Data`. -/
structure JSON where
  Marshal : hashcash.Data → Except Error String
  Unmarshal : String → Except Error hashcash.Data

/-! ## Package go-generics-cache -/

/-- An entry of the cache: its key and the instant it expires (in nanoseconds), if any. -/
structure Item where
  Key : Int
  Expiration : Option Int
deriving DecidableEq, Repr

/-- `Item.Expired`: the clock is after the expiration instant. -/
def Item.Expired (item : Item) (now : Int) : Bool :=
  match item.Expiration with
  | none => false
  | some e => decide (e < now)

/-- The nonce ledger, a `cache.Cache[int, any]`: at most one entry per key. -/
abbrev Cache := List Item

/-- `cache.Set(key, nil, cache.WithExpiration(exp))` at the instant `now`: the entry replaces
any entry of the same key and expires at `now + exp`, whatever the sign of `exp`; with `exp`
zero or negative it is expired as soon as the clock has moved past `now + exp`. -/
def Cache.Set (c : Cache) (key : Int) (now exp : Int) : Cache :=
  ⟨key, some (now + exp)⟩ :: c.filter fun it => it.Key ≠ key

/-- `cache.Get(key)` at the instant `now`: whether the key is present and not expired. -/
def Cache.Get (c : Cache) (key : Int) (now : Int) : Bool :=
  match c.find? fun it => it.Key = key with
  | some item => !item.Expired now
  | none => false

/-- `cache.Delete(key)`. -/
def Cache.Delete (c : Cache) (key : Int) : Cache :=
  c.filter fun it => it.Key ≠ key

/-! ## Package server -/

namespace server

open hashcash domain

def errQuit : Error := Error.New "client requests to close connection"

def errInvalidHashcashClient : Error := Error.New "invalid hashcash client"

def errInvalidMessageType : Error := Error.New "invalid message type"

def errInvalidHashcash : Error := Error.New "invalid hashcash"

def errValueNotFoundInCache : Error := Error.New "value not found in cache"

def quotes : List String := [
  "You create your own opportunities. Success doesn’t just come and find you–you have to go out and get it",
  "Never break your promises. Keep every promise; it makes you credible",
  "You are never as stuck as you think you are. Success is not final, and failure isn’t fatal",
  "Happiness is a choice. For every minute you are angry, you lose 60 seconds of your own happiness",
  "Habits develop into character. Character is the result of our mental attitude and the way we spend our time",
  "Be happy with who you are. Being happy doesn’t mean everything is perfect but that you have decided to look beyond the imperfections",
  "Don’t seek happiness–create it. You don’t need life to go your way to be happy",
  "If you want to be happy, stop complaining. If you want happiness, stop complaining about how your life isn’t what you want and make it into what you do want",
  "Asking for help is a sign of strength. Don’t let your fear of being judged stop you from asking for help when you need it. Sometimes asking for help is the bravest move you can make. You don’t have to go it alone",
  "Replace every negative thought with a positive one. A positive mind is stronger than a negative thought"]

/-- Server - main struct of TCP-server (the logger, which no result depends on, is left out). -/
structure Server where
  host : String
  port : Int
  zerosCount : Int
  hashcashDuration : Int
  cache : Cache
deriving DecidableEq, Repr

/-- The unit `time.Second`, in nanoseconds. -/
def Second : Int := 1000000000

/-- The function `handleRequestChallenge`.  `randValue` is the result of
`rand.Int(rand.Reader, big.NewInt(100000))` and `now` the clock, in nanoseconds since the
epoch; the server is returned with its cache updated. -/
def handleRequestChallenge (json : JSON) (s : Server) (_msg : Message) (client : String)
    (randValue : Except Error (Fin 100000)) (now : Int) :
    Server × (Option Message × Option Error) :=
  match randValue with
  | .error err => (s, (none, some (Error.Errorf "generate rand value: " err)))
  | .ok randValue =>
    -- Add rand value with expiration (in seconds) to cache.
    let s := { s with
      cache := s.cache.Set (randValue.val : Int) now (wrapInt64 (Second * s.hashcashDuration)) }
    let hashcashData : Data := {
      ZerosCount := s.zerosCount
      Date := now / Second
      Client := client
      Rand := EncodeToString (bytes (formatNat randValue.val))
      Counter := 0 }
    match json.Marshal hashcashData with
    | .error err => (s, (none, some (Error.Errorf "marshal hashcash: " err)))
    | .ok hashcashBytes =>
      (s, (some { Typ := MessageTypeResponseChallenge, Payload := hashcashBytes }, none))

/-- The function `handleRequestResource`.  `randIdx` is the result of
`rand.Int(rand.Reader, big.NewInt(int64(len(quotes))))`, `now` the clock and `fuel` the
fuel of the proof-of-work loop; the server is returned with its cache updated. -/
def handleRequestResource (SimpleFold : Nat → Nat) (json : JSON) (s : Server) (msg : Message)
    (client : String) (randIdx : Except Error (Fin quotes.length)) (now : Int) (fuel : Nat) :
    Outcome (Server × (Option Message × Option Error)) :=
  match json.Unmarshal msg.Payload with
  | .error err => .ret (s, (none, some (Error.Errorf "unmarshal hashcash: " err)))
  | .ok hashcashData =>
    if !EqualFold SimpleFold hashcashData.Client client then
      .ret (s, (none, some errInvalidHashcashClient))
    else
      match DecodeString hashcashData.Rand with
      | .error err => .ret (s, (none, some (Error.Errorf "decode rand value bytes: " err)))
      | .ok randValueBytes =>
        match Atoi randValueBytes with
        | .error err => .ret (s, (none, some (Error.Errorf "convert rand value to int: " err)))
        | .ok randValue =>
          -- Check if rand value exists in cache.
          if !s.cache.Get randValue now then .ret (s, (none, some errValueNotFoundInCache))
          else
            let maxIter := if hashcashData.Counter = 0 then 1 else hashcashData.Counter
            match Data.ComputeHashcash fuel hashcashData maxIter with
            | .panic => .panic
            | .outOfFuel => .outOfFuel
            | .ret (_, some _) => .ret (s, (none, some errInvalidHashcash))
            | .ret (_, none) =>
              match randIdx with
              | .error err => .ret (s, (none, some (Error.Errorf "generate rand value: " err)))
              | .ok randIdx =>
                let msg : Message := {
                  Typ := MessageTypeResponseSource
                  Payload := quotes[randIdx] }
                .ret ({ s with cache := s.cache.Delete randValue }, (some msg, none))

/-- The function `processMessage`, with the inputs of the two handlers. -/
def processMessage (SimpleFold : Nat → Nat) (json : JSON) (s : Server) (msg : Message)
    (client : String) (randValue : Except Error (Fin 100000))
    (randIdx : Except Error (Fin quotes.length)) (now : Int) (fuel : Nat) :
    Outcome (Server × (Option Message × Option Error)) :=
  if msg.Typ = MessageTypeQuit then .ret (s, (none, some errQuit))
  else if msg.Typ = MessageTypeRequestChallenge then
    .ret (handleRequestChallenge json s msg client randValue now)
  else if msg.Typ = MessageTypeRequestResource then
    handleRequestResource SimpleFold json s msg client randIdx now fuel
  else .ret (s, (none, some errInvalidMessageType))

end server

/-! ## A JSON codec for evaluating examples

`goJSON` writes a `hashcash.Data` the way `json.Marshal` does and reads back JSON objects
whose values are strings and integers.  The theorems below hold for every `JSON`; this one
serves to run the handlers on concrete payloads. -/

namespace goJSON

open hashcash

def hexChar (n : Nat) : Char := hexDigit n

/-- Escaping of one character inside a JSON string, as `json.Marshal` escapes. -/
def escapeChar (c : Char) : List Char :=
  if c = '\x22' then ['\x5c', '\x22']
  else if c = '\x5c' then ['\x5c', '\x5c']
  else if c = '\n' then ['\x5c', 'n']
  else if c = '\r' then ['\x5c', 'r']
  else if c = '\t' then ['\x5c', 't']
  else if c.toNat < 0x20 ∨ c = '<' ∨ c = '>' ∨ c = '&' ∨ c.toNat = 0x2028 ∨ c.toNat = 0x2029 then
    ['\x5c', 'u', hexChar (c.toNat / 4096 % 16), hexChar (c.toNat / 256 % 16),
      hexChar (c.toNat / 16 % 16), hexChar (c.toNat % 16)]
  else [c]

def quote (s : String) : String := "\"" ++ String.mk (s.toList.flatMap escapeChar) ++ "\""

def Marshal (d : Data) : Except Error String :=
  .ok ("\x7b\"ZerosCount\":" ++ formatInt d.ZerosCount ++ ",\"Date\":" ++ formatInt d.Date
    ++ ",\"Client\":" ++ quote d.Client ++ ",\"Rand\":" ++ quote d.Rand
    ++ ",\"Counter\":" ++ formatInt d.Counter ++ "\x7d")

/-- A JSON value of the fragment read back. -/
inductive Value where
  | str (s : String)
  | num (n : Int)
deriving DecidableEq, Repr

def isWs (c : Char) : Bool := c = ' ' || c = '\t' || c = '\n' || c = '\r'

def hexValue (c : Char) : Option Nat :=
  let v := c.toNat
  if 0x30 ≤ v ∧ v ≤ 0x39 then some (v - 0x30)
  else if 0x61 ≤ v ∧ v ≤ 0x66 then some (v - 0x61 + 10)
  else if 0x41 ≤ v ∧ v ≤ 0x46 then some (v - 0x41 + 10)
  else none

/-- The character an escape letter stands for. -/
def unescape (e : Char) : Option Char :=
  if e = '\x22' then some '\x22'
  else if e = '\x5c' then some '\x5c'
  else if e = '/' then some '/'
  else if e = 'b' then some (Char.ofNat 8)
  else if e = 'f' then some (Char.ofNat 12)
  else if e = 'n' then some '\n'
  else if e = 'r' then some '\r'
  else if e = 't' then some '\t'
  else none

/-- Where the reader of a string stands: in plain text, after a backslash, or inside the
four hexadecimal digits of a `\u` escape. -/
inductive StrState where
  | plain
  | esc
  | hex (left : Nat) (val : Nat)
deriving DecidableEq, Repr

/-- Reads a string body up to its closing quote; `acc` holds the characters read, reversed. -/
def readString : List Char → StrState → List Char → Option (String × List Char)
  | [], _, _ => none
  | c :: rest, .plain, acc =>
    if c = '\x22' then some (String.mk acc.reverse, rest)
    else if c = '\x5c' then readString rest .esc acc
    else if c.toNat < 0x20 then none
    else readString rest .plain (c :: acc)
  | c :: rest, .esc, acc =>
    if c = 'u' then readString rest (.hex 4 0) acc
    else
      match unescape c with
      | some u => readString rest .plain (u :: acc)
      | none => none
  | c :: rest, .hex left val, acc =>
    match hexValue c with
    | none => none
    | some h =>
      if left ≤ 1 then readString rest .plain (Char.ofNat (val * 16 + h) :: acc)
      else readString rest (.hex (left - 1) (val * 16 + h)) acc

def isDigit (c : Char) : Bool := 0x30 ≤ c.toNat && c.toNat ≤ 0x39

/-- Reads an integer literal within the range of `int64`. -/
def readInt (cs : List Char) : Option (Int × List Char) :=
  let neg := cs.head? = some '-'
  let body := if neg then cs.drop 1 else cs
  let ds := body.takeWhile isDigit
  let rest := body.dropWhile isDigit
  if ds = [] ∨ (ds.length > 1 ∧ ds.head? = some '0') then none
  else if rest.head? = some '.' ∨ rest.head? = some 'e' ∨ rest.head? = some 'E' then none
  else
    let n : Nat := ds.foldl (fun acc c => acc * 10 + (c.toNat - 0x30)) 0
    let v : Int := if neg then -(n : Int) else (n : Int)
    if minInt64 ≤ v ∧ v ≤ maxInt64 then some (v, rest) else none

def readValue (cs : List Char) : Option (Value × List Char) :=
  match cs with
  | [] => none
  | c :: rest =>
    if c = '\x22' then
      match readString rest .plain [] with
      | some (s, r) => some (.str s, r)
      | none => none
    else
      match readInt (c :: rest) with
      | some (n, r) => some (.num n, r)
      | none => none

def lower (s : String) : String := String.mk (s.toList.map Char.toLower)

/-- Stores a member into the struct; keys match the field names without regard to case,
other keys are ignored, a value of the wrong kind is an error. -/
def setField (d : Data) (key : String) (v : Value) : Option Data :=
  let k := lower key
  if k = "zeroscount" then
    match v with
    | .num n => some { d with ZerosCount := n }
    | _ => none
  else if k = "date" then
    match v with
    | .num n => some { d with Date := n }
    | _ => none
  else if k = "client" then
    match v with
    | .str s => some { d with Client := s }
    | _ => none
  else if k = "rand" then
    match v with
    | .str s => some { d with Rand := s }
    | _ => none
  else if k = "counter" then
    match v with
    | .num n => some { d with Counter := n }
    | _ => none
  else some d

/-- Reads the members of an object, after its opening brace, up to the end of the text. -/
def readMembers : Nat → List Char → Data → Option Data
  | 0, _, _ => none
  | fuel + 1, cs, d =>
    match cs.dropWhile isWs with
    | [] => none
    | q :: r1 =>
      if q ≠ '\x22' then none
      else
        match readString r1 .plain [] with
        | none => none
        | some (key, r2) =>
          match r2.dropWhile isWs with
          | [] => none
          | colon :: r3 =>
            if colon ≠ ':' then none
            else
              match readValue (r3.dropWhile isWs) with
              | none => none
              | some (v, r4) =>
                match setField d key v with
                | none => none
                | some d2 =>
                  match r4.dropWhile isWs with
                  | [] => none
                  | sep :: r5 =>
                    if sep = ',' then readMembers fuel r5 d2
                    else if sep = '\x7d' ∧ r5.dropWhile isWs = [] then some d2
                    else none

def Unmarshal (s : String) : Except Error Data :=
  let zero : Data := ⟨0, 0, "", "", 0⟩
  let r : Option Data :=
    match s.toList.dropWhile isWs with
    | [] => none
    | c :: rest =>
      if c ≠ '\x7b' then none
      else
        match rest.dropWhile isWs with
        | [] => none
        | c2 :: rest2 =>
          if c2 = '\x7d' ∧ rest2.dropWhile isWs = [] then some zero
          else readMembers s.length rest zero
  match r with
  | some d => .ok d
  | none => .error (Error.New "json: cannot unmarshal")

end goJSON

/-- The codec `goJSON` as a `JSON`. -/
def goJSONCodec : JSON := ⟨goJSON.Marshal, goJSON.Unmarshal⟩

/-! ## Example data -/

namespace server

/-- A server as the repository tests build it, holding the live nonces 12345 and 123460
(both expire at instant 100). -/
def exServer : Server :=
  ⟨"localhost", 8080, 3, 30, [⟨12345, some 100⟩, ⟨123460, some 100⟩]⟩

/-- A payload with counter 0 and one required zero: the hash at counter 0 starts with `5`,
the hash at counter 1 starts with `0`. -/
def luckyPayload : String :=
  "\x7b\"ZerosCount\":1,\"Date\":1700000004,\"Client\":\"127.0.0.1:5000\",\"Rand\":\"MTIzNDU=\",\"Counter\":0\x7d"

/-- The payload of `luckyPayload` after the search: counter 1. -/
def solvedPayload : String :=
  "\x7b\"ZerosCount\":1,\"Date\":1700000004,\"Client\":\"127.0.0.1:5000\",\"Rand\":\"MTIzNDU=\",\"Counter\":1\x7d"

/-- The payload of the repository test with a zero counter: three zeros required, nonce
123460, client `client1`. -/
def unsolvedPayload : String :=
  "\x7b\"ZerosCount\":3,\"Date\":1700000004,\"Client\":\"client1\",\"Rand\":\"MTIzNDYw\",\"Counter\":0\x7d"

/-- The payload the repository test `TestServer_HandleRequestResourceWithZeroCounter` builds
when it runs at Unix time 1700007970: counter 0, three zeros required.  The hash at counter 0
starts with `84d`, the hash at counter 1 with `000`. -/
def zeroCounterTestPayload : String :=
  "\x7b\"ZerosCount\":3,\"Date\":1700007970,\"Client\":\"client1\",\"Rand\":\"MTIzNDYw\",\"Counter\":0\x7d"

/-- A payload claiming counter -1, one zero required: the hashes at counters -1 and 0 do not
qualify, the hash at counter 1 does. -/
def negativeCounterPayload : String :=
  "\x7b\"ZerosCount\":1,\"Date\":1700000004,\"Client\":\"127.0.0.1:5000\",\"Rand\":\"MTIzNDU=\",\"Counter\":-1\x7d"

/-- A payload that asks for no zero at all, with an arbitrary counter. -/
def zeroDifficultyPayload : String :=
  "\x7b\"ZerosCount\":0,\"Date\":1700000004,\"Client\":\"127.0.0.1:5000\",\"Rand\":\"MTIzNDU=\",\"Counter\":777\x7d"

/-- A payload with a negative number of zeros. -/
def negativeZerosPayload : String :=
  "\x7b\"ZerosCount\":-1,\"Date\":1700000004,\"Client\":\"127.0.0.1:5000\",\"Rand\":\"MTIzNDU=\",\"Counter\":5\x7d"

end server

/-! ## Theorems: package hashcash -/

namespace hashcash

theorem decodeRune_zero (bs : List Nat) : decodeRune (48 :: bs) = (48, 1) := by
  simp [decodeRune]

theorem decodeRune_ne_zero (b : Nat) (bs : List Nat) (hb : b ≠ 48) :
    (decodeRune (b :: bs)).1 ≠ 48 := by
  rcases bs with _ | ⟨b1, _ | ⟨b2, _ | ⟨b3, t⟩⟩⟩ <;> simp only [decodeRune] <;>
    (repeat' split) <;>
    simp only [Bool.and_eq_true, decide_eq_true_eq, RuneError, ne_eq] at * <;> omega

theorem rangeAllZero_eq_all (fuel : Nat) (bs : List Nat) (h : bs.length ≤ fuel) :
    rangeAllZero fuel bs = bs.all (fun b => decide (b = 48)) := by
  induction fuel generalizing bs with
  | zero =>
    have : bs = [] := List.length_eq_zero.mp (Nat.le_zero.mp h)
    subst this; rfl
  | succ n ih =>
    cases bs with
    | nil => rfl
    | cons b t =>
      by_cases hb : b = 48
      · subst hb
        simp only [rangeAllZero, decodeRune_zero, ne_eq, not_true_eq_false, if_false,
          List.drop_succ_cons, List.drop_zero, List.all_cons, decide_True, Bool.true_and]
        exact ih t (by simpa using h)
      · have := decodeRune_ne_zero b t hb
        simp [rangeAllZero, this, hb]

theorem utf8EncodeChar_zero : utf8EncodeChar '0' = [48] := by decide

theorem utf8EncodeChar_head (c : Char) (hc : c ≠ '0') :
    ∃ b t, utf8EncodeChar c = b :: t ∧ b ≠ 48 := by
  have hv : c.toNat ≠ 48 := by
    intro h
    apply hc
    apply Char.ext
    apply UInt32.ext
    simpa [Char.toNat] using h
  unfold utf8EncodeChar
  simp only
  split_ifs
  · exact ⟨_, _, rfl, hv⟩
  · exact ⟨_, _, rfl, by omega⟩
  · exact ⟨_, _, rfl, by omega⟩
  · exact ⟨_, _, rfl, by omega⟩

/-- The first `z` bytes of the encoding are all the byte `'0'` exactly when the first `z`
characters are all the character `'0'`. -/
theorem take_bytes_all_zero (z : Nat) (cs : List Char) :
    (z ≤ (cs.flatMap utf8EncodeChar).length ∧
        ((cs.flatMap utf8EncodeChar).take z).all (fun b => decide (b = 48)) = true) ↔
      ∀ i : Nat, i < z → cs[i]? = some '0' := by
  induction z generalizing cs with
  | zero => simp
  | succ n ih =>
    cases cs with
    | nil =>
      simp only [List.flatMap_nil, List.length_nil, Nat.le_zero_eq, Nat.succ_ne_zero,
        false_and, false_iff, not_forall]
      exact ⟨0, Nat.succ_pos n, by simp⟩
    | cons c t =>
      by_cases hc : c = '0'
      · subst hc
        simp only [List.flatMap_cons, utf8EncodeChar_zero, List.singleton_append,
          List.length_cons, Nat.succ_le_succ_iff, List.take_succ_cons, List.all_cons,
          decide_True, Bool.true_and]
        rw [ih t]
        constructor
        · intro h i hi
          cases i with
          | zero => simp
          | succ j => simpa using h j (by omega)
        · intro h i hi
          simpa using h (i + 1) (by omega)
      · obtain ⟨b, r, hbr, hb⟩ := utf8EncodeChar_head c hc
        constructor
        · intro h
          simp [List.flatMap_cons, hbr, hb] at h
        · intro h
          exact absurd (by simpa using h 0 (Nat.succ_pos n)) hc

/-- Value of `isHashCorrect` for a non-negative count, in terms of the characters of the hash. -/
theorem isHashCorrect_ret_true_iff (hash : String) (z : Nat) :
    isHashCorrect hash (z : Int) = .ret true ↔
      (z ≤ len hash ∧ ∀ i : Nat, i < z → hash.toList[i]? = some '0') := by
  unfold isHashCorrect
  by_cases h : (z : Int) > (len hash : Int)
  · have h2 : ¬ z ≤ len hash := by omega
    simp [h, h2]
  · have h2 : z ≤ len hash := by omega
    have h3 : ¬ ((z : Int) < 0) := by omega
    simp only [h, h3, if_false, Int.toNat_ofNat, Outcome.ret.injEq, h2, true_and]
    rw [rangeAllZero_eq_all _ _ (List.length_take_le _ _)]
    have key := take_bytes_all_zero z hash.toList
    have h4 : z ≤ (hash.toList.flatMap utf8EncodeChar).length := h2
    rw [← key]
    exact ⟨fun hh => ⟨h4, hh⟩, fun hh => hh.2⟩

theorem isHashCorrect_nonneg_ret (hash : String) (z : Int) (hz : 0 ≤ z) :
    ∃ b, isHashCorrect hash z = .ret b := by
  unfold isHashCorrect
  split_ifs with h1 h2
  · exact ⟨_, rfl⟩
  · omega
  · exact ⟨_, rfl⟩

theorem isHashCorrect_neg (hash : String) (z : Int) (hz : z < 0) :
    isHashCorrect hash z = .panic := by
  unfold isHashCorrect
  have : ¬ z > (len hash : Int) := by omega
  simp [this, hz]

end hashcash

namespace hashcash

theorem wrapInt64_of_inRange (x : Int) (h1 : minInt64 ≤ x) (h2 : x ≤ maxInt64) :
    wrapInt64 x = x := by
  unfold wrapInt64
  unfold minInt64 at h1
  unfold maxInt64 at h2
  omega

theorem not_qualifies_ret_false (d : Data) (k j : Int) (hq : qualifies d k)
    (hj : ¬ qualifies d j) :
    isHashCorrect (sha1Hash ({ d with Counter := j }).String) d.ZerosCount = .ret false := by
  have hz : 0 ≤ d.ZerosCount := by
    by_contra hneg
    have := isHashCorrect_neg (sha1Hash ({ d with Counter := k }).String) d.ZerosCount
      (by omega)
    unfold qualifies at hq
    rw [this] at hq
    exact absurd hq (by simp)
  obtain ⟨b, hb⟩ := isHashCorrect_nonneg_ret (sha1Hash ({ d with Counter := j }).String)
    d.ZerosCount hz
  cases b with
  | false => exact hb
  | true => exact absurd hb hj

/-- Running the loop over `n` consecutive counters whose hashes do not qualify. -/
theorem ComputeHashcash_skip (n fuel : Nat) (d : Data) (maxIterations : Int)
    (hlo : minInt64 ≤ d.Counter) (hhi : d.Counter + n ≤ maxInt64)
    (hcond : ∀ j : Int, d.Counter ≤ j → j < d.Counter + n → j ≤ maxIterations ∨ maxIterations ≤ 0)
    (hnq : ∀ j : Int, d.Counter ≤ j → j < d.Counter + n →
      isHashCorrect (sha1Hash ({ d with Counter := j }).String) d.ZerosCount = .ret false) :
    Data.ComputeHashcash (fuel + n) d maxIterations =
      Data.ComputeHashcash fuel { d with Counter := d.Counter + n } maxIterations := by
  induction n generalizing d with
  | zero => simp
  | succ m ih =>
    have hc := hcond d.Counter (le_refl _) (by push_cast; omega)
    have hq := hnq d.Counter (le_refl _) (by push_cast; omega)
    have hw : wrapInt64 (d.Counter + 1) = d.Counter + 1 :=
      wrapInt64_of_inRange _ (by omega) (by push_cast at hhi; omega)
    have hd : ({ d with Counter := d.Counter } : Data) = d := rfl
    rw [hd] at hq
    rw [show fuel + (m + 1) = (fuel + m) + 1 from rfl, Data.ComputeHashcash]
    simp only [hc, if_true, hq, hw]
    rw [ih { d with Counter := d.Counter + 1 }]
    · congr 2
      push_cast
      omega
    · show minInt64 ≤ d.Counter + 1
      omega
    · show d.Counter + 1 + (m : Int) ≤ maxInt64
      push_cast at hhi; omega
    · intro j h1 h2
      simp only at h1 h2
      exact hcond j (by omega) (by push_cast; omega)
    · intro j h1 h2
      simp only at h1 h2
      exact hnq j (by omega) (by push_cast; omega)

/-- C9: for every hash and every non-negative zerosCount, isHashCorrect returns, and it
returns true exactly when zerosCount does not exceed the length of the hash (in bytes, as Go
`len` counts, or equivalently in characters) and each of the first zerosCount characters is
the character 0; it is false when zerosCount exceeds the length and true when zerosCount is 0. -/
theorem isHashCorrect_spec (hash : String) (zerosCount : Int) (hz : 0 ≤ zerosCount) :
    (∃ b, isHashCorrect hash zerosCount = .ret b) ∧
    (isHashCorrect hash zerosCount = .ret true ↔
      zerosCount ≤ (len hash : Int) ∧
        ∀ i : Nat, (i : Int) < zerosCount → hash.toList[i]? = some '0') ∧
    (isHashCorrect hash zerosCount = .ret true ↔
      zerosCount ≤ (hash.length : Int) ∧
        ∀ i : Nat, (i : Int) < zerosCount → hash.toList[i]? = some '0') ∧
    ((len hash : Int) < zerosCount → isHashCorrect hash zerosCount = .ret false) ∧
    (zerosCount = 0 → isHashCorrect hash zerosCount = .ret true) := by
  obtain ⟨z, rfl⟩ := Int.eq_ofNat_of_zero_le hz
  have key := isHashCorrect_ret_true_iff hash z
  have hall : (∀ i : Nat, (i : Int) < (z : Int) → hash.toList[i]? = some '0') ↔
      ∀ i : Nat, i < z → hash.toList[i]? = some '0' := by
    constructor
    · intro h i hi; exact h i (by exact_mod_cast hi)
    · intro h i hi; exact h i (by exact_mod_cast hi)
  refine ⟨isHashCorrect_nonneg_ret hash _ hz, ?_, ?_, ?_, ?_⟩
  · rw [key, hall]; simp
  · rw [key, hall]
    constructor
    · rintro ⟨_, h2⟩
      refine ⟨?_, h2⟩
      by_contra hlt
      have hlt2 : hash.length < z := by
        have : ¬ ((z : Int) ≤ (hash.length : Int)) := hlt
        omega
      have := h2 hash.length hlt2
      have hnone : hash.toList[hash.length]? = none :=
        List.getElem?_eq_none (Nat.le_refl _)
      rw [hnone] at this
      exact absurd this (by simp)
    · rintro ⟨_, h2⟩
      exact ⟨((take_bytes_all_zero z hash.toList).mpr h2).1, h2⟩
  · intro h
    unfold isHashCorrect
    simp [h]
  · intro h
    have h0 : z = 0 := by exact_mod_cast h
    subst h0
    rw [key]
    simp

/-- C9, at the hash and count of the repository test. -/
theorem isHashCorrect_spec_witness :
    (0 : Int) ≤ 5 ∧ isHashCorrect "00000abcd1234" 5 = .ret true ∧
      isHashCorrect "000abcd1234" 5 = .ret false ∧
      isHashCorrect "00000abcd1234" 14 = .ret false :=
  ⟨by decide, ((isHashCorrect_spec "00000abcd1234" 5 (by decide)).2.1).mpr
      ⟨by decide, by
        intro i hi
        have : i < 5 := by exact_mod_cast hi
        interval_cases i <;> rfl⟩,
    by decide, by decide⟩

/-- The success return of the loop comes right after `isHashCorrect` gave true. -/
theorem ComputeHashcash_ok_correct (fuel : Nat) (d : Data) (maxIterations : Int)
    (r : Data) (h : Data.ComputeHashcash fuel d maxIterations = .ret (r, none)) :
    isHashCorrect (sha1Hash r.String) r.ZerosCount = .ret true := by
  induction fuel generalizing d with
  | zero => simp [Data.ComputeHashcash] at h
  | succ n ih =>
    rw [Data.ComputeHashcash] at h
    split_ifs at h with hc
    · split at h
      · next heq =>
        simp only [Outcome.ret.injEq, Prod.mk.injEq, and_true] at h
        subst h
        exact heq
      · exact ih _ h
      · simp at h
      · simp at h
    · simp at h

/-- Characters of a hash that passes `isHashCorrect`. -/
theorem isHashCorrect_true_chars (hash : String) (z : Int)
    (h : isHashCorrect hash z = .ret true) :
    z ≤ (len hash : Int) ∧ ∀ i : Nat, (i : Int) < z → hash.toList[i]? = some '0' := by
  have hz : 0 ≤ z := by
    by_contra hneg
    rw [isHashCorrect_neg _ _ (by omega)] at h
    exact absurd h (by simp)
  obtain ⟨n, rfl⟩ := Int.eq_ofNat_of_zero_le hz
  obtain ⟨h1, h2⟩ := (isHashCorrect_ret_true_iff hash n).mp h
  exact ⟨by exact_mod_cast h1, fun i hi => h2 i (by exact_mod_cast hi)⟩

/-- C6: whenever ComputeHashcash returns without error, the SHA-1 hex hash of the canonical
string of the returned challenge has its first ZerosCount characters equal to 0, that is
isHashCorrect holds for it. -/
theorem ComputeHashcash_success_isHashCorrect (fuel : Nat) (d : Data) (maxIterations : Int)
    (r : Data) (h : Data.ComputeHashcash fuel d maxIterations = .ret (r, none)) :
    isHashCorrect (sha1Hash r.String) r.ZerosCount = .ret true ∧
      (r.ZerosCount ≤ (len (sha1Hash r.String) : Int) ∧
        ∀ i : Nat, (i : Int) < r.ZerosCount → (sha1Hash r.String).toList[i]? = some '0') :=
  ⟨ComputeHashcash_ok_correct fuel d maxIterations r h,
    isHashCorrect_true_chars _ _ (ComputeHashcash_ok_correct fuel d maxIterations r h)⟩

/-- C6, on the challenge of the repository test with one leading zero, started at counter 1. -/
theorem ComputeHashcash_success_isHashCorrect_witness :
    Data.ComputeHashcash 25 ⟨1, 1629927217, "client", "random", 1⟩ 1000000 =
        .ret (⟨1, 1629927217, "client", "random", 20⟩, none) ∧
      isHashCorrect (sha1Hash (Data.String ⟨1, 1629927217, "client", "random", 20⟩)) 1
        = .ret true :=
  ⟨by decide, (ComputeHashcash_success_isHashCorrect 25
    ⟨1, 1629927217, "client", "random", 1⟩ 1000000 ⟨1, 1629927217, "client", "random", 20⟩
    (by decide)).1⟩

end hashcash

namespace hashcash

/-- C7 as stated fails when the starting counter is already beyond `maxIterations + 1`: from
counter 18 with `maxIterations = 5` (the least qualifying counter from 18 on is 20) the loop
body never runs and the challenge comes back with counter 18. -/
theorem ComputeHashcash_bounded_failure_counterexample :
    (0 : Int) < 5 ∧ minInt64 ≤ 18 ∧ (18 : Int) ≤ 20 ∧ (20 : Int) ≤ maxInt64 ∧
      qualifies ⟨1, 1629927217, "client", "random", 18⟩ 20 ∧
      (∀ j : Int, 18 ≤ j → j < 20 → ¬ qualifies ⟨1, 1629927217, "client", "random", 18⟩ j) ∧
      (5 : Int) < 20 ∧
      ¬ ∃ fuel r, Data.ComputeHashcash fuel ⟨1, 1629927217, "client", "random", 18⟩ 5 =
          .ret (r, some errMaxIterationsExceeded) ∧ r.Counter ≤ 5 + 1 := by
  refine ⟨by decide, by decide, by decide, by decide, by decide, ?_, by decide, ?_⟩
  · intro j h1 h2
    interval_cases j <;> decide
  · rintro ⟨fuel, r, h, hr⟩
    cases fuel with
    | zero => simp [Data.ComputeHashcash] at h
    | succ n =>
      rw [Data.ComputeHashcash] at h
      have hc : ¬ ((18 : Int) ≤ 5 ∨ (5 : Int) ≤ 0) := by decide
      simp only [hc, if_false, Outcome.ret.injEq, Prod.mk.injEq, and_true] at h
      subst h
      exact absurd hr (by decide)

/-- C7 (amended): for every challenge whose counter is a 64-bit integer and every positive
maxIterations smaller than the least counter at or above the starting counter whose hash
qualifies, ComputeHashcash (given fuel for its iterations) fails with
errMaxIterationsExceeded and returns the challenge with counter
max(starting counter, maxIterations + 1); so the returned counter does not exceed
maxIterations + 1 whenever the starting counter does not. -/
theorem ComputeHashcash_bounded_failure (d : Data) (maxIterations k : Int) (fuel : Nat)
    (hpos : 0 < maxIterations) (hlo : minInt64 ≤ d.Counter) (hk : d.Counter ≤ k)
    (hkmax : k ≤ maxInt64) (hq : qualifies d k)
    (hleast : ∀ j : Int, d.Counter ≤ j → j < k → ¬ qualifies d j)
    (hlt : maxIterations < k) (hfuel : (maxIterations + 1 - d.Counter).toNat < fuel) :
    Data.ComputeHashcash fuel d maxIterations =
        .ret ({ d with Counter := max d.Counter (maxIterations + 1) },
          some errMaxIterationsExceeded) ∧
      (d.Counter ≤ maxIterations + 1 →
        max d.Counter (maxIterations + 1) ≤ maxIterations + 1) := by
  refine ⟨?_, fun h => by simp [h]⟩
  set n := (maxIterations + 1 - d.Counter).toNat with hn
  obtain ⟨f, rfl⟩ : ∃ f, fuel = (f + 1) + n := ⟨fuel - n - 1, by omega⟩
  have hmaxeq : max d.Counter (maxIterations + 1) = d.Counter + n := by
    rcases le_total d.Counter (maxIterations + 1) with h | h
    · rw [max_eq_right h]; omega
    · rw [max_eq_left h]; omega
  rw [ComputeHashcash_skip n (f + 1) d maxIterations hlo (by omega)
    (fun j h1 h2 => Or.inl (by omega))
    (fun j h1 h2 => not_qualifies_ret_false d k j hq (hleast j h1 (by omega)))]
  rw [Data.ComputeHashcash]
  have hc : ¬ (d.Counter + (n : Int) ≤ maxIterations ∨ maxIterations ≤ 0) := by omega
  simp only [hc, if_false, hmaxeq]

/-- C7 (amended), from counter 17 with `maxIterations = 18`: counters 17 and 18 fail and the
challenge comes back with counter 19. -/
theorem ComputeHashcash_bounded_failure_witness :
    Data.ComputeHashcash 5 ⟨1, 1629927217, "client", "random", 17⟩ 18 =
      .ret (⟨1, 1629927217, "client", "random", 19⟩, some errMaxIterationsExceeded) :=
  (ComputeHashcash_bounded_failure ⟨1, 1629927217, "client", "random", 17⟩ 18 20 5
    (by decide) (by decide) (by decide) (by decide) (by decide)
    (by intro j h1 h2; interval_cases j <;> decide) (by decide) (by decide)).1

/-- C8: with maxIterations at most 0, ComputeHashcash never returns
errMaxIterationsExceeded, and whenever it returns it returns success with a counter whose
hash qualifies. -/
theorem ComputeHashcash_unbounded (fuel : Nat) (d : Data) (maxIterations : Int)
    (hmax : maxIterations ≤ 0) :
    (∀ r, Data.ComputeHashcash fuel d maxIterations ≠
        .ret (r, some errMaxIterationsExceeded)) ∧
      (∀ r e, Data.ComputeHashcash fuel d maxIterations = .ret (r, e) →
        e = none ∧ isHashCorrect (sha1Hash r.String) r.ZerosCount = .ret true) := by
  have main : ∀ r e, Data.ComputeHashcash fuel d maxIterations = .ret (r, e) →
      e = none ∧ isHashCorrect (sha1Hash r.String) r.ZerosCount = .ret true := by
    induction fuel generalizing d with
    | zero => intro r e h; simp [Data.ComputeHashcash] at h
    | succ n ih =>
      intro r e h
      rw [Data.ComputeHashcash] at h
      have hc : d.Counter ≤ maxIterations ∨ maxIterations ≤ 0 := Or.inr hmax
      simp only [hc, if_true] at h
      split at h
      · next heq =>
        simp only [Outcome.ret.injEq, Prod.mk.injEq] at h
        obtain ⟨h1, h2⟩ := h
        subst h1
        exact ⟨h2.symm, heq⟩
      · exact ih _ r e h
      · simp at h
      · simp at h
  refine ⟨?_, main⟩
  intro r h
  have := (main r _ h).1
  simp at this

/-- C8, on the challenge of the repository test started at counter 1 with
`maxIterations = 0`: the search runs past counter 1 and succeeds at counter 20. -/
theorem ComputeHashcash_unbounded_witness :
    (0 : Int) ≤ 0 ∧
      Data.ComputeHashcash 25 ⟨1, 1629927217, "client", "random", 1⟩ 0 =
        .ret (⟨1, 1629927217, "client", "random", 20⟩, none) ∧
      isHashCorrect (sha1Hash (Data.String ⟨1, 1629927217, "client", "random", 20⟩)) 1
        = .ret true :=
  ⟨by decide, by decide,
    ((ComputeHashcash_unbounded 25 ⟨1, 1629927217, "client", "random", 1⟩ 0 (by decide)).2
      ⟨1, 1629927217, "client", "random", 20⟩ none (by decide)).2⟩

end hashcash

/-! ## Theorems: package domain -/

namespace domain

theorem toNat_toLower (c : Char) :
    c.toLower.toNat = if 65 ≤ c.toNat ∧ c.toNat ≤ 90 then c.toNat + 32 else c.toNat := by
  unfold Char.toLower
  simp only [ge_iff_le]
  split_ifs with h
  · obtain ⟨h1, h2⟩ := h
    generalize c.toNat = n at h1 h2
    interval_cases n <;> rfl
  · rfl

theorem runeEqualFold_toLower (F : Nat → Nat) (c : Char) :
    runeEqualFold F c.toNat c.toLower.toNat = true := by
  rw [toNat_toLower]
  unfold runeEqualFold
  split_ifs with h1 h2 h3 h4 h5 <;> simp_all
  all_goals omega

theorem equalFoldChars_map_toLower (F : Nat → Nat) (cs : List Char) :
    equalFoldChars F cs (cs.map Char.toLower) = true := by
  induction cs with
  | nil => rfl
  | cons c t ih => simp [equalFoldChars, runeEqualFold_toLower, ih]

theorem EqualFold_lowerCase (F : Nat → Nat) (s : String) :
    EqualFold F s (lowerCase s) = true :=
  equalFoldChars_map_toLower F s.toList

theorem isMsgTypeValid_of_lowerCase (F : Nat → Nat) (t : String)
    (h : lowerCase t ∈ knownTypes) : isMsgTypeValid F t = true := by
  have key := EqualFold_lowerCase F t
  simp only [knownTypes, List.mem_cons, List.mem_singleton, List.not_mem_nil, or_false] at h
  unfold isMsgTypeValid
  rcases h with h | h | h | h | h <;> rw [h] at key <;> simp [key]

/-- Characters of a type whose lower-casing is a known type are ASCII letters or `_`. -/
theorem knownType_chars (t : String) (h : lowerCase t ∈ knownTypes) (c : Char)
    (hc : c ∈ t.toList) :
    (65 ≤ c.toNat ∧ c.toNat ≤ 90) ∨ c.toNat = 95 ∨ (97 ≤ c.toNat ∧ c.toNat ≤ 122) := by
  have hall : ∀ K ∈ knownTypes, ∀ k ∈ K.toList,
      k.toNat = 95 ∨ (97 ≤ k.toNat ∧ k.toNat ≤ 122) := by decide
  have hmem : c.toLower ∈ (lowerCase t).toList := by
    simp only [lowerCase]
    exact List.mem_map_of_mem _ hc
  have := hall _ h _ hmem
  rw [toNat_toLower] at this
  split_ifs at this with h1
  · exact Or.inl h1
  · rcases this with h2 | h2
    · exact Or.inr (Or.inl h2)
    · exact Or.inr (Or.inr h2)

theorem knownType_ne_nil (t : String) (h : lowerCase t ∈ knownTypes) : t.toList ≠ [] := by
  intro hnil
  have : lowerCase t = "" := by
    show String.mk (t.toList.map Char.toLower) = ""
    rw [hnil]
    rfl
  rw [this] at h
  exact absurd h (by decide)

theorem isSpace_of_toNat (c : Char)
    (h : (65 ≤ c.toNat ∧ c.toNat ≤ 90) ∨ c.toNat = 95 ∨ (97 ≤ c.toNat ∧ c.toNat ≤ 122)) :
    isSpace c = false := by
  unfold isSpace
  have h1 : c.toNat ≤ 0xFF := by omega
  simp only [h1, if_true, Bool.or_eq_false_iff, decide_eq_false_iff_not]
  omega

theorem ne_bar_of_toNat (c : Char)
    (h : (65 ≤ c.toNat ∧ c.toNat ≤ 90) ∨ c.toNat = 95 ∨ (97 ≤ c.toNat ∧ c.toNat ≤ 122)) :
    c ≠ '|' := by
  intro hc
  subst hc
  revert h
  decide

theorem splitChars_of_not_mem (sep : Char) (p : List Char) (h : sep ∉ p) :
    splitChars sep p = [p] := by
  induction p with
  | nil => rfl
  | cons c t ih =>
    have hc : c ≠ sep := fun e => h (by simp [e])
    have ht : sep ∉ t := fun e => h (by simp [e])
    simp [splitChars, hc, ih ht]

theorem splitChars_append_sep (sep : Char) (t p : List Char) (h : sep ∉ t) :
    splitChars sep (t ++ sep :: p) = t :: splitChars sep p := by
  induction t with
  | nil => simp [splitChars]
  | cons c t ih =>
    have hc : c ≠ sep := fun e => h (by simp [e])
    have ht : sep ∉ t := fun e => h (by simp [e])
    simp [splitChars, hc, ih ht]

theorem dropWhile_eq_self_of_head {α : Type} (p : α → Bool) (l : List α)
    (h : ∀ a, l.head? = some a → p a = false) : l.dropWhile p = l := by
  cases l with
  | nil => rfl
  | cons a t => simp [List.dropWhile, h a rfl]

/-- What `TrimSpace` does to an encoded line `t|p\n`. -/
theorem TrimSpace_line (t p : List Char)
    (ht : ∀ a, t.head? = some a → isSpace a = false) (htne : t ≠ [])
    (hp : ∀ a, p.getLast? = some a → isSpace a = false) :
    TrimSpace (String.mk (t ++ '|' :: p ++ ['\n'])) = String.mk (t ++ '|' :: p) := by
  show String.mk (((t ++ '|' :: p ++ ['\n']).dropWhile isSpace).reverse.dropWhile
    isSpace).reverse = String.mk (t ++ '|' :: p)
  congr 1
  have h1 : (t ++ '|' :: p ++ ['\n']).dropWhile isSpace = t ++ '|' :: p ++ ['\n'] := by
    apply dropWhile_eq_self_of_head
    intro a ha
    cases t with
    | nil => exact absurd rfl htne
    | cons b t' =>
      simp at ha
      exact ht a (by simp [ha])
  simp only [h1]
  have h2 : (t ++ '|' :: p ++ ['\n']).reverse = '\n' :: (t ++ '|' :: p).reverse := by
    simp
  rw [h2]
  have h3 : isSpace '\n' = true := by decide
  simp only [List.dropWhile, h3]
  rw [dropWhile_eq_self_of_head, List.reverse_reverse]
  intro a ha
  rw [List.head?_reverse] at ha
  cases hpe : p.getLast? with
  | none =>
    have : p = [] := by simpa using hpe
    subst this
    simp at ha
    subst ha
    decide
  | some b =>
    have : (t ++ '|' :: p).getLast? = some b := by
      rw [List.getLast?_append, List.getLast?_cons, hpe]
      simp
    rw [this] at ha
    cases ha
    exact hp _ hpe

/-- C10 as stated fails: the type comes back as written, not lower-cased (`QUIT` stays
`QUIT`); a payload holding `|` makes three parts and is rejected as "invalid format"; a
payload ending in white space loses it.  None of the payloads holds a newline. -/
theorem ParseMessage_String_counterexample :
    (lowerCase "QUIT" ∈ knownTypes ∧ '\n' ∉ "x".toList ∧
      ParseMessage simpleFoldASCII (Message.String ⟨"QUIT", "x"⟩) = (some ⟨"QUIT", "x"⟩, none) ∧
      ParseMessage simpleFoldASCII (Message.String ⟨"QUIT", "x"⟩) ≠
        (some ⟨lowerCase "QUIT", "x"⟩, none)) ∧
    (lowerCase "quit" ∈ knownTypes ∧ '\n' ∉ "a|b".toList ∧
      ParseMessage simpleFoldASCII (Message.String ⟨"quit", "a|b"⟩) =
        (none, some (Error.New "invalid format"))) ∧
    (lowerCase "quit" ∈ knownTypes ∧ '\n' ∉ "x ".toList ∧
      ParseMessage simpleFoldASCII (Message.String ⟨"quit", "x "⟩) =
        (some ⟨"quit", "x"⟩, none)) := by
  decide

/-- C10 (amended): for every message whose Type is one of the five known type strings
written in any letter casing and whose Payload contains no `|` and does not end in a
white-space character (so in particular not in a newline), ParseMessage applied to
Message.String() succeeds and returns the message itself: the Type exactly as it was written
and the Payload unchanged.  This holds for every case-folding table. -/
theorem ParseMessage_String_roundtrip (SimpleFold : Nat → Nat) (m : Message)
    (hT : lowerCase m.Typ ∈ knownTypes) (hbar : '|' ∉ m.Payload.toList)
    (hend : ∀ c, m.Payload.toList.getLast? = some c → isSpace c = false) :
    ParseMessage SimpleFold m.String = (some m, none) := by
  obtain ⟨t, p⟩ := m
  simp only at hT hbar hend
  have hchars := knownType_chars t hT
  have htbar : '|' ∉ t.toList := fun hmem => ne_bar_of_toNat _ (hchars _ hmem) rfl
  have hstr : Message.String ⟨t, p⟩ = String.mk (t.toList ++ '|' :: p.toList ++ ['\n']) := by
    apply String.ext
    simp [Message.String]
  have htrim := TrimSpace_line t.toList p.toList
    (fun a ha => isSpace_of_toNat a (hchars a (List.mem_of_mem_head? ha)))
    (knownType_ne_nil t hT) hend
  have hsplit : Split (String.mk (t.toList ++ '|' :: p.toList)) '|' = [t, p] := by
    unfold Split
    show (splitChars '|' (t.toList ++ '|' :: p.toList)).map String.mk = [t, p]
    rw [splitChars_append_sep _ _ _ htbar, splitChars_of_not_mem _ _ hbar]
    rfl
  unfold ParseMessage
  simp only [hstr, htrim, hsplit]
  have hvalid := isMsgTypeValid_of_lowerCase SimpleFold t hT
  simp [hvalid]

/-- C10 (amended), on a mixed-case type and a payload with an inner blank. -/
theorem ParseMessage_String_roundtrip_witness :
    ParseMessage simpleFoldASCII (Message.String ⟨"Request_Challenge", "payload data"⟩) =
      (some ⟨"Request_Challenge", "payload data"⟩, none) :=
  ParseMessage_String_roundtrip simpleFoldASCII ⟨"Request_Challenge", "payload data"⟩
    (by decide) (by decide) (by decide)

end domain

/-! ## Theorems: the nonce survives its encoding -/

theorem utf8EncodeChar_ascii (c : Char) (h : c.toNat < 0x80) : utf8EncodeChar c = [c.toNat] := by
  simp [utf8EncodeChar, h]

theorem bytes_mk_ascii (cs : List Char) (h : ∀ c ∈ cs, c.toNat < 0x80) :
    bytes (String.mk cs) = cs.map Char.toNat := by
  show cs.flatMap utf8EncodeChar = cs.map Char.toNat
  induction cs with
  | nil => rfl
  | cons c t ih =>
    have hc := h c (by simp)
    have ht : ∀ x ∈ t, x.toNat < 0x80 := fun x hx => h x (by simp [hx])
    simp [List.flatMap_cons, utf8EncodeChar_ascii c hc, ih ht]

theorem toNat_digitChar (k : Nat) (h : k < 10) : (digitChar k).toNat = 48 + k := by
  interval_cases k <;> rfl

theorem formatNatAux_digits (fuel n : Nat) (acc : List Char)
    (hacc : ∀ c ∈ acc, 48 ≤ c.toNat ∧ c.toNat ≤ 57) :
    ∀ c ∈ formatNatAux fuel n acc, 48 ≤ c.toNat ∧ c.toNat ≤ 57 := by
  induction fuel generalizing n acc with
  | zero => simpa [formatNatAux] using hacc
  | succ f ih =>
    unfold formatNatAux
    split_ifs with h
    · intro c hc
      rcases List.mem_cons.mp hc with rfl | hc
      · rw [toNat_digitChar n h]; omega
      · exact hacc c hc
    · apply ih
      intro c hc
      rcases List.mem_cons.mp hc with rfl | hc
      · rw [toNat_digitChar _ (Nat.mod_lt _ (by decide))]
        have := Nat.mod_lt n (show 0 < 10 by decide)
        omega
      · exact hacc c hc

theorem formatNatAux_ne_nil (fuel n : Nat) (acc : List Char) (h : n < fuel) :
    formatNatAux fuel n acc ≠ [] := by
  induction fuel generalizing n acc with
  | zero => omega
  | succ f ih =>
    unfold formatNatAux
    split_ifs with h10
    · simp
    · exact ih _ _ (by omega)

theorem parseDigits_formatNatAux (fuel n : Nat) (acc : List Char) (h : n < fuel) :
    parseDigits ((formatNatAux fuel n acc).map Char.toNat) 0 =
      parseDigits (acc.map Char.toNat) n := by
  induction fuel generalizing n acc with
  | zero => omega
  | succ f ih =>
    unfold formatNatAux
    split_ifs with h10
    · simp only [List.map_cons, parseDigits, toNat_digitChar n h10]
      have : 48 ≤ 48 + n ∧ 48 + n ≤ 57 := by omega
      simp [this]
    · rw [ih (n / 10) _ (by omega)]
      have hm := Nat.mod_lt n (show 0 < 10 by decide)
      simp only [List.map_cons, parseDigits, toNat_digitChar _ hm]
      have : 48 ≤ 48 + n % 10 ∧ 48 + n % 10 ≤ 57 := by omega
      simp only [this, and_self, if_true]
      congr 1
      omega

/-- `strconv.Atoi` reads back what `%d` wrote, for a non-negative `int`. -/
theorem Atoi_formatNat (n : Nat) (h : (n : Int) ≤ maxInt64) :
    Atoi (bytes (formatNat n)) = .ok (n : Int) := by
  have hd := formatNatAux_digits (n + 1) n [] (by simp)
  have hb : bytes (formatNat n) = (formatNatAux (n + 1) n []).map Char.toNat :=
    bytes_mk_ascii _ (fun c hc => by have := hd c hc; omega)
  have hne := formatNatAux_ne_nil (n + 1) n [] (Nat.lt_succ_self n)
  have hp := parseDigits_formatNatAux (n + 1) n [] (Nat.lt_succ_self n)
  rw [hb]
  generalize hl : formatNatAux (n + 1) n [] = l at hd hne hp
  cases l with
  | nil => exact absurd rfl hne
  | cons c t =>
    have hc := hd c (by simp)
    simp only [List.map_cons] at hp ⊢
    have h1 : c.toNat ≠ 0x2B := by omega
    have h2 : c.toNat ≠ 0x2D := by omega
    unfold Atoi
    have hbody : (match c.toNat :: t.map Char.toNat with
        | 0x2B :: t => t
        | 0x2D :: t => t
        | t => t) = c.toNat :: t.map Char.toNat := by
      split
      · next heq => simp at heq; exact absurd heq.1 h1
      · next heq => simp at heq; exact absurd heq.1 h2
      · rfl
    simp only [hbody, hp, List.head?_cons, Option.some.injEq, h2, parseDigits]
    have hmin : minInt64 ≤ (n : Int) := by unfold minInt64; omega
    simp [h, hmin]

theorem base64Char_facts (n : Nat) (h : n < 64) :
    base64Value (base64Char n).toNat = some n ∧ (base64Char n).toNat ≠ 0x3D ∧
      (base64Char n).toNat ≠ 0x0D ∧ (base64Char n).toNat ≠ 0x0A ∧
      (base64Char n).toNat < 0x80 := by
  interval_cases n <;> decide

theorem encodeQuanta_ascii (bs : List Nat) (h : ∀ b ∈ bs, b < 256) :
    ∀ c ∈ encodeQuanta bs, c.toNat < 0x80 ∧ c.toNat ≠ 0x0D ∧ c.toNat ≠ 0x0A := by
  have hch : ∀ n, n < 64 →
      (base64Char n).toNat < 0x80 ∧ (base64Char n).toNat ≠ 0x0D ∧ (base64Char n).toNat ≠ 0x0A :=
    fun n hn => ⟨(base64Char_facts n hn).2.2.2.2, (base64Char_facts n hn).2.2.1,
      (base64Char_facts n hn).2.2.2.1⟩
  have heq : ('='.toNat < 0x80 ∧ '='.toNat ≠ 0x0D ∧ '='.toNat ≠ 0x0A) := by decide
  induction bs using encodeQuanta.induct with
  | case1 => simp [encodeQuanta]
  | case2 a =>
    have ha := h a (by simp)
    intro c hc
    simp only [encodeQuanta, List.mem_cons, List.mem_singleton, List.not_mem_nil, or_false] at hc
    rcases hc with rfl | rfl | rfl | rfl
    · exact hch _ (by omega)
    · exact hch _ (by omega)
    · exact heq
    · exact heq
  | case3 a b =>
    have ha := h a (by simp)
    have hb := h b (by simp)
    intro c hc
    simp only [encodeQuanta, List.mem_cons, List.mem_singleton, List.not_mem_nil, or_false] at hc
    rcases hc with rfl | rfl | rfl | rfl
    · exact hch _ (by omega)
    · exact hch _ (by omega)
    · exact hch _ (by omega)
    · exact heq
  | case4 a b c rest ih =>
    have ha := h a (by simp)
    have hb := h b (by simp)
    have hc := h c (by simp)
    have hr : ∀ x ∈ rest, x < 256 := fun x hx => h x (by simp [hx])
    intro x hx
    simp only [encodeQuanta, List.mem_cons] at hx
    rcases hx with rfl | rfl | rfl | rfl | hx
    · exact hch _ (by omega)
    · exact hch _ (by omega)
    · exact hch _ (by omega)
    · exact hch _ (by omega)
    · exact ih hr x hx

theorem decodeQuanta_encodeQuanta (bs : List Nat) (h : ∀ b ∈ bs, b < 256) :
    decodeQuanta ((encodeQuanta bs).map Char.toNat) = some bs := by
  have heq : '='.toNat = 0x3D := by decide
  induction bs using encodeQuanta.induct with
  | case1 => simp [encodeQuanta, decodeQuanta]
  | case2 a =>
    have ha := h a (by simp)
    obtain ⟨v1, _⟩ := base64Char_facts (a / 4) (by omega)
    obtain ⟨v2, _⟩ := base64Char_facts (a % 4 * 16) (by omega)
    simp only [encodeQuanta, List.map_cons, List.map_nil, decodeQuanta, heq, v1, v2,
      and_self, if_true]
    congr 2
    omega
  | case3 a b =>
    have ha := h a (by simp)
    have hb := h b (by simp)
    obtain ⟨v1, _⟩ := base64Char_facts (a / 4) (by omega)
    obtain ⟨v2, _⟩ := base64Char_facts (a % 4 * 16 + b / 16) (by omega)
    obtain ⟨v3, n3, _⟩ := base64Char_facts (b % 16 * 4) (by omega)
    simp only [encodeQuanta, List.map_cons, List.map_nil, decodeQuanta, heq, v1, v2, v3, n3,
      and_self, if_true, false_and, if_false]
    congr 2
    · omega
    · congr 1
      omega
  | case4 a b c rest ih =>
    have ha := h a (by simp)
    have hb := h b (by simp)
    have hc := h c (by simp)
    have hr : ∀ x ∈ rest, x < 256 := fun x hx => h x (by simp [hx])
    obtain ⟨v1, _⟩ := base64Char_facts (a / 4) (by omega)
    obtain ⟨v2, _⟩ := base64Char_facts (a % 4 * 16 + b / 16) (by omega)
    obtain ⟨v3, n3, _⟩ := base64Char_facts (b % 16 * 4 + c / 64) (by omega)
    obtain ⟨v4, n4, _⟩ := base64Char_facts (c % 64) (by omega)
    simp only [encodeQuanta, List.map_cons, decodeQuanta, v1, v2, v3, v4, n3, n4, ih hr,
      false_and, if_false]
    congr 2
    · omega
    · congr 1
      · omega
      · congr 1
        omega

/-- `DecodeString` reads back what `EncodeToString` wrote. -/
theorem DecodeString_EncodeToString (bs : List Nat) (h : ∀ b ∈ bs, b < 256) :
    DecodeString (EncodeToString bs) = .ok bs := by
  have hasc := encodeQuanta_ascii bs h
  have hb : bytes (EncodeToString bs) = (encodeQuanta bs).map Char.toNat :=
    bytes_mk_ascii _ (fun c hc => (hasc c hc).1)
  unfold DecodeString
  rw [hb]
  have hf : ((encodeQuanta bs).map Char.toNat).filter (fun b => decide (b ≠ 0x0D ∧ b ≠ 0x0A)) =
      (encodeQuanta bs).map Char.toNat := by
    apply List.filter_eq_self.mpr
    intro b hb
    obtain ⟨c, hc, rfl⟩ := List.mem_map.mp hb
    simpa using (hasc c hc).2
  rw [hf, decodeQuanta_encodeQuanta bs h]

/-- The nonce written into `Rand` by the challenge handler is read back by the resource
handler. -/
theorem nonce_roundtrip (n : Nat) (h : (n : Int) ≤ maxInt64) :
    DecodeString (EncodeToString (bytes (formatNat n))) = .ok (bytes (formatNat n)) ∧
      Atoi (bytes (formatNat n)) = .ok (n : Int) := by
  refine ⟨DecodeString_EncodeToString _ ?_, Atoi_formatNat n h⟩
  have hd := formatNatAux_digits (n + 1) n [] (by simp)
  have hb : bytes (formatNat n) = (formatNatAux (n + 1) n []).map Char.toNat :=
    bytes_mk_ascii _ (fun c hc => by have := hd c hc; omega)
  rw [hb]
  intro b hb
  obtain ⟨c, hc, rfl⟩ := List.mem_map.mp hb
  have := hd c hc
  omega

/-! ## Theorems: package server -/

namespace server

open hashcash domain

theorem equalFoldChars_refl (F : Nat → Nat) (cs : List Char) : equalFoldChars F cs cs = true := by
  induction cs with
  | nil => rfl
  | cons c t ih => simp [equalFoldChars, runeEqualFold, ih]

theorem EqualFold_refl (F : Nat → Nat) (s : String) : EqualFold F s s = true :=
  equalFoldChars_refl F s.toList

/-- The loop changes nothing but the counter. -/
theorem ComputeHashcash_fields (fuel : Nat) (d : Data) (maxIterations : Int) (r : Data)
    (e : Option Error) (h : Data.ComputeHashcash fuel d maxIterations = .ret (r, e)) :
    r.ZerosCount = d.ZerosCount ∧ r.Date = d.Date ∧ r.Client = d.Client ∧ r.Rand = d.Rand := by
  induction fuel generalizing d with
  | zero => simp [Data.ComputeHashcash] at h
  | succ n ih =>
    rw [Data.ComputeHashcash] at h
    split_ifs at h with hc
    · split at h
      · simp only [Outcome.ret.injEq, Prod.mk.injEq] at h
        obtain ⟨h1, _⟩ := h
        subst h1
        exact ⟨rfl, rfl, rfl, rfl⟩
      · exact ih { d with Counter := wrapInt64 (d.Counter + 1) } h
      · simp at h
      · simp at h
    · simp only [Outcome.ret.injEq, Prod.mk.injEq] at h
      obtain ⟨h1, _⟩ := h
      subst h1
      exact ⟨rfl, rfl, rfl, rfl⟩

/-- A result of the loop does not depend on the fuel left over. -/
theorem ComputeHashcash_fuel_mono (fuel k : Nat) (d : Data) (maxIterations : Int)
    (x : Data × Option Error) (h : Data.ComputeHashcash fuel d maxIterations = .ret x) :
    Data.ComputeHashcash (fuel + k) d maxIterations = .ret x := by
  induction fuel generalizing d with
  | zero => simp [Data.ComputeHashcash] at h
  | succ n ih =>
    rw [show n + 1 + k = (n + k) + 1 by omega, Data.ComputeHashcash]
    rw [Data.ComputeHashcash] at h
    by_cases hc : d.Counter ≤ maxIterations ∨ maxIterations ≤ 0
    · simp only [hc, if_true] at h ⊢
      cases hq : isHashCorrect (sha1Hash d.String) d.ZerosCount with
      | ret b =>
        cases b with
        | true => simpa only [hq] using h
        | false =>
          simp only [hq] at h ⊢
          exact ih _ h
      | panic => simp [hq] at h
      | outOfFuel => simp [hq] at h
    · simp only [hc, if_false] at h ⊢
      exact h

/-- The resource handler up to the proof-of-work check, for a payload that decodes to `d`,
names the connection's client and carries the live nonce `n`. -/
theorem handleRequestResource_verified (F : Nat → Nat) (json : JSON) (s : Server)
    (msg : Message) (client : String) (randIdx : Except Error (Fin quotes.length))
    (now : Int) (fuel : Nat) (d : Data) (bs : List Nat) (n : Int)
    (hd : json.Unmarshal msg.Payload = .ok d) (hc : EqualFold F d.Client client = true)
    (hb : DecodeString d.Rand = .ok bs) (ha : Atoi bs = .ok n)
    (hl : s.cache.Get n now = true) :
    handleRequestResource F json s msg client randIdx now fuel =
      match Data.ComputeHashcash fuel d (if d.Counter = 0 then 1 else d.Counter) with
      | .panic => .panic
      | .outOfFuel => .outOfFuel
      | .ret (_, some _) => .ret (s, (none, some errInvalidHashcash))
      | .ret (_, none) =>
        match randIdx with
        | .error err => .ret (s, (none, some (Error.Errorf "generate rand value: " err)))
        | .ok randIdx =>
          .ret ({ s with cache := s.cache.Delete n },
            (some { Typ := MessageTypeResponseSource, Payload := quotes[randIdx] }, none)) := by
  unfold handleRequestResource
  simp only [hd, hc, hb, ha, hl, Bool.not_true, Bool.false_eq_true, if_false]

theorem Cache_Get_Delete (c : Cache) (key : Int) (now : Int) :
    Cache.Get (Cache.Delete c key) key now = false := by
  unfold Cache.Get Cache.Delete
  have : (c.filter fun it => decide (it.Key ≠ key)).find? (fun it => decide (it.Key = key)) = none := by
    rw [List.find?_eq_none]
    intro x hx
    have := (List.mem_filter.mp hx).2
    simpa using this
  rw [this]

end server

namespace server

open hashcash domain

/-- C1, evaluated where the code departs from it.  The payload of the repository test
`TestServer_HandleRequestResourceWithZeroCounter`, built at Unix time 1700007970, names the
connection's client, carries the live nonce 123460 and claims counter 0, whose hash does not
begin with three zeros; the server goes on to counter 1, whose hash does, and serves the
request instead of failing with errInvalidHashcash.  A payload claiming counter -1 is
searched upwards without bound and served at counter 1 in the same way. -/
theorem handleRequestResource_accepts_other_counter :
    (goJSONCodec.Unmarshal zeroCounterTestPayload =
        .ok ⟨3, 1700007970, "client1", "MTIzNDYw", 0⟩ ∧
      EqualFold simpleFoldASCII "client1" "client1" = true ∧
      DecodeString "MTIzNDYw" = .ok (bytes "123460") ∧
      Atoi (bytes "123460") = .ok 123460 ∧
      exServer.cache.Get 123460 50 = true ∧
      isHashCorrect (sha1Hash (Data.String ⟨3, 1700007970, "client1", "MTIzNDYw", 0⟩)) 3
        = .ret false ∧
      ∀ fuel, 2 ≤ fuel →
        handleRequestResource simpleFoldASCII goJSONCodec exServer
            ⟨MessageTypeRequestResource, zeroCounterTestPayload⟩ "client1"
            (.ok ⟨3, by decide⟩) 50 fuel =
          .ret ({ exServer with cache := [⟨12345, some 100⟩] },
            (some ⟨MessageTypeResponseSource, quotes[3]⟩, none))) ∧
    (goJSONCodec.Unmarshal negativeCounterPayload =
        .ok ⟨1, 1700000004, "127.0.0.1:5000", "MTIzNDU=", -1⟩ ∧
      EqualFold simpleFoldASCII "127.0.0.1:5000" "127.0.0.1:5000" = true ∧
      DecodeString "MTIzNDU=" = .ok (bytes "12345") ∧
      Atoi (bytes "12345") = .ok 12345 ∧
      exServer.cache.Get 12345 50 = true ∧
      isHashCorrect (sha1Hash (Data.String ⟨1, 1700000004, "127.0.0.1:5000", "MTIzNDU=", -1⟩))
        1 = .ret false ∧
      ∀ fuel, 3 ≤ fuel →
        handleRequestResource simpleFoldASCII goJSONCodec exServer
            ⟨MessageTypeRequestResource, negativeCounterPayload⟩ "127.0.0.1:5000"
            (.ok ⟨3, by decide⟩) 50 fuel =
          .ret ({ exServer with cache := [⟨123460, some 100⟩] },
            (some ⟨MessageTypeResponseSource, quotes[3]⟩, none))) := by
  refine ⟨⟨by decide, by decide, by decide, by decide, by decide, by decide, ?_⟩,
    ⟨by decide, by decide, by decide, by decide, by decide, by decide, ?_⟩⟩
  · intro fuel hf
    obtain ⟨k, rfl⟩ : ∃ k, fuel = 2 + k := ⟨fuel - 2, by omega⟩
    rw [handleRequestResource_verified simpleFoldASCII goJSONCodec exServer _ _ _ 50 _
      ⟨3, 1700007970, "client1", "MTIzNDYw", 0⟩ (bytes "123460") 123460
      (by decide) (by decide) (by decide) (by decide) (by decide)]
    have hC : Data.ComputeHashcash 2 ⟨3, 1700007970, "client1", "MTIzNDYw", 0⟩ 1 =
        .ret (⟨3, 1700007970, "client1", "MTIzNDYw", 1⟩, none) := by decide
    simp only [if_true, ComputeHashcash_fuel_mono 2 k _ _ _ hC]
    decide
  · intro fuel hf
    obtain ⟨k, rfl⟩ : ∃ k, fuel = 3 + k := ⟨fuel - 3, by omega⟩
    rw [handleRequestResource_verified simpleFoldASCII goJSONCodec exServer _ _ _ 50 _
      ⟨1, 1700000004, "127.0.0.1:5000", "MTIzNDU=", -1⟩ (bytes "12345") 12345
      (by decide) (by decide) (by decide) (by decide) (by decide)]
    have hC : Data.ComputeHashcash 3 ⟨1, 1700000004, "127.0.0.1:5000", "MTIzNDU=", -1⟩ (-1) =
        .ret (⟨1, 1700000004, "127.0.0.1:5000", "MTIzNDU=", 1⟩, none) := by decide
    have hm : (if (-1 : Int) = 0 then (1 : Int) else -1) = -1 := by decide
    simp only [hm, ComputeHashcash_fuel_mono 3 k _ _ _ hC]
    decide

/-- Where verification is exact: for a payload whose Client matches the connection and whose
nonce is live, with a Counter from 0 up to (not including) the largest int, if the hash of
the canonical string does not qualify at the submitted Counter, and for Counter 0 not at
counter 1 either, then handleRequestResource fails with errInvalidHashcash and leaves the
server as it was.  For a Counter of 1 or more only the claimed counter is hashed. -/
theorem handleRequestResource_invalid_hashcash (SimpleFold : Nat → Nat) (json : JSON)
    (s : Server) (msg : Message) (client : String)
    (randIdx : Except Error (Fin quotes.length)) (now : Int) (fuel : Nat) (d : Data)
    (bs : List Nat) (n : Int)
    (hd : json.Unmarshal msg.Payload = .ok d) (hc : EqualFold SimpleFold d.Client client = true)
    (hb : DecodeString d.Rand = .ok bs) (ha : Atoi bs = .ok n)
    (hl : s.cache.Get n now = true)
    (hlo : 0 ≤ d.Counter) (hhi : d.Counter < maxInt64)
    (hbad : isHashCorrect (sha1Hash d.String) d.ZerosCount = .ret false)
    (hone : d.Counter = 0 →
      isHashCorrect (sha1Hash ({ d with Counter := 1 }).String) d.ZerosCount = .ret false)
    (hfuel : 3 ≤ fuel) :
    handleRequestResource SimpleFold json s msg client randIdx now fuel =
      .ret (s, (none, some errInvalidHashcash)) := by
  rw [handleRequestResource_verified SimpleFold json s msg client randIdx now fuel d bs n
    hd hc hb ha hl]
  obtain ⟨k, rfl⟩ : ∃ k, fuel = 3 + k := ⟨fuel - 3, by omega⟩
  have hmin : minInt64 ≤ d.Counter := by unfold minInt64; omega
  by_cases h0 : d.Counter = 0
  · have hC : Data.ComputeHashcash 3 d 1 =
        .ret ({ d with Counter := 2 }, some errMaxIterationsExceeded) := by
      have hskip := ComputeHashcash_skip 2 1 d 1 hmin (by rw [h0]; decide)
        (fun j h1 h2 => Or.inl (by rw [h0] at h2; push_cast at h2; omega))
        (fun j h1 h2 => by
          rw [h0] at h1 h2
          have hj : j = 0 ∨ j = 1 := by push_cast at h2; omega
          rcases hj with rfl | rfl
          · have : ({ d with Counter := 0 } : Data) = d := by rw [← h0]
            rw [this]; exact hbad
          · exact hone h0)
      rw [show (3 : Nat) = 1 + 2 from rfl, hskip]
      rw [Data.ComputeHashcash]
      have hcond : ¬ (d.Counter + ((2 : Nat) : Int) ≤ 1 ∨ (1 : Int) ≤ 0) := by
        rw [h0]; decide
      simp only [hcond, if_false, h0]
      rfl
    simp only [h0, if_true, ComputeHashcash_fuel_mono 3 k _ _ _ hC]
  · have hC : Data.ComputeHashcash 3 d d.Counter =
        .ret ({ d with Counter := d.Counter + 1 }, some errMaxIterationsExceeded) := by
      have hskip := ComputeHashcash_skip 1 2 d d.Counter hmin (by push_cast; omega)
        (fun j h1 h2 => Or.inl (by push_cast at h2; omega))
        (fun j h1 h2 => by
          have hj : j = d.Counter := by push_cast at h2; omega
          subst hj
          exact hbad)
      rw [show (3 : Nat) = 2 + 1 from rfl, hskip]
      rw [Data.ComputeHashcash]
      have hcond : ¬ (d.Counter + ((1 : Nat) : Int) ≤ d.Counter ∨ d.Counter ≤ 0) := by
        push_cast; omega
      simp only [hcond, if_false]
      rfl
    simp only [h0, if_false, ComputeHashcash_fuel_mono 3 k _ _ _ hC]

/-- Exact verification on the payload of the repository test with a zero counter, built at
Unix time 1700000004. -/
theorem handleRequestResource_invalid_hashcash_witness :
    handleRequestResource simpleFoldASCII goJSONCodec exServer
        ⟨MessageTypeRequestResource, unsolvedPayload⟩ "client1" (.ok ⟨0, by decide⟩) 50 3 =
      .ret (exServer, (none, some errInvalidHashcash)) :=
  handleRequestResource_invalid_hashcash simpleFoldASCII goJSONCodec exServer
    ⟨MessageTypeRequestResource, unsolvedPayload⟩ "client1" (.ok ⟨0, by decide⟩) 50 3
    ⟨3, 1700000004, "client1", "MTIzNDYw", 0⟩ (bytes "123460") 123460
    (by decide) (by decide) (by decide) (by decide) (by decide) (by decide) (by decide)
    (by decide) (by intro _; decide) (by decide)

end server

namespace server

open hashcash domain

/-- A payload naming another client is refused before anything else is looked at. -/
theorem handleRequestResource_wrong_client_aux (SimpleFold : Nat → Nat) (json : JSON)
    (s : Server) (msg : Message) (client : String)
    (randIdx : Except Error (Fin quotes.length)) (now : Int) (fuel : Nat) (d : Data)
    (hd : json.Unmarshal msg.Payload = .ok d)
    (hc : EqualFold SimpleFold d.Client client = false) :
    handleRequestResource SimpleFold json s msg client randIdx now fuel =
      .ret (s, (none, some errInvalidHashcashClient)) := by
  unfold handleRequestResource
  simp only [hd, hc, Bool.not_false, if_true]

/-- C4: for every request_resource payload that decodes to a challenge whose Client field
does not equal the connection's remote address ignoring letter case, handleRequestResource
fails with errInvalidHashcashClient, returns no message and leaves the server as it was,
whatever the ledger, the nonce, the counter, the clock and the fuel are. -/
theorem handleRequestResource_wrong_client (SimpleFold : Nat → Nat) (json : JSON) (s : Server)
    (msg : Message) (client : String) (randIdx : Except Error (Fin quotes.length))
    (now : Int) (fuel : Nat) (d : Data)
    (hd : json.Unmarshal msg.Payload = .ok d)
    (hc : EqualFold SimpleFold d.Client client = false) :
    handleRequestResource SimpleFold json s msg client randIdx now fuel =
      .ret (s, (none, some errInvalidHashcashClient)) :=
  handleRequestResource_wrong_client_aux SimpleFold json s msg client randIdx now fuel d hd hc

/-- C4, on the repository test: a solved payload of `127.0.0.1:5000` with a live nonce, sent
over the connection of `127.0.0.1:5001`. -/
theorem handleRequestResource_wrong_client_witness :
    handleRequestResource simpleFoldASCII goJSONCodec exServer
        ⟨MessageTypeRequestResource, solvedPayload⟩ "127.0.0.1:5001" (.ok ⟨0, by decide⟩) 50 0 =
      .ret (exServer, (none, some errInvalidHashcashClient)) :=
  handleRequestResource_wrong_client simpleFoldASCII goJSONCodec exServer
    ⟨MessageTypeRequestResource, solvedPayload⟩ "127.0.0.1:5001" (.ok ⟨0, by decide⟩) 50 0
    ⟨1, 1700000004, "127.0.0.1:5000", "MTIzNDU=", 1⟩ (by decide) (by decide)

/-- Every return of the resource handler with a message is the success return. -/
theorem handleRequestResource_cases (SimpleFold : Nat → Nat) (json : JSON) (s : Server)
    (msg : Message) (client : String) (randIdx : Except Error (Fin quotes.length))
    (now : Int) (fuel : Nat) (s2 : Server) (m : Option Message) (e : Option Error)
    (h : handleRequestResource SimpleFold json s msg client randIdx now fuel =
      .ret (s2, (m, e))) :
    (s2 = s ∧ m = none ∧ e.isSome = true) ∨
      (∃ d bs n idx, json.Unmarshal msg.Payload = .ok d ∧ DecodeString d.Rand = .ok bs ∧
        Atoi bs = .ok n ∧ s.cache.Get n now = true ∧ randIdx = .ok idx ∧
        s2 = { s with cache := s.cache.Delete n } ∧
        m = some ⟨MessageTypeResponseSource, quotes[idx]⟩ ∧ e = none) := by
  unfold handleRequestResource at h
  cases hd : json.Unmarshal msg.Payload with
  | error err =>
    simp only [hd, Outcome.ret.injEq, Prod.mk.injEq] at h
    obtain ⟨h1, h2, h3⟩ := h
    exact Or.inl ⟨h1.symm, h2.symm, by rw [← h3]; rfl⟩
  | ok d =>
    simp only [hd] at h
    by_cases hc : EqualFold SimpleFold d.Client client = true
    · simp only [hc, Bool.not_true, Bool.false_eq_true, if_false] at h
      cases hb : DecodeString d.Rand with
      | error err =>
        simp only [hb, Outcome.ret.injEq, Prod.mk.injEq] at h
        obtain ⟨h1, h2, h3⟩ := h
        exact Or.inl ⟨h1.symm, h2.symm, by rw [← h3]; rfl⟩
      | ok bs =>
        simp only [hb] at h
        cases ha : Atoi bs with
        | error err =>
          simp only [ha, Outcome.ret.injEq, Prod.mk.injEq] at h
          obtain ⟨h1, h2, h3⟩ := h
          exact Or.inl ⟨h1.symm, h2.symm, by rw [← h3]; rfl⟩
        | ok n =>
          simp only [ha] at h
          by_cases hl : s.cache.Get n now = true
          · simp only [hl, Bool.not_true, Bool.false_eq_true, if_false] at h
            cases hC : Data.ComputeHashcash fuel d (if d.Counter = 0 then 1 else d.Counter) with
            | panic => simp only [hC] at h; exact absurd h (by simp)
            | outOfFuel => simp only [hC] at h; exact absurd h (by simp)
            | ret x =>
              obtain ⟨r, oe⟩ := x
              cases oe with
              | some e2 =>
                simp only [hC, Outcome.ret.injEq, Prod.mk.injEq] at h
                obtain ⟨h1, h2, h3⟩ := h
                exact Or.inl ⟨h1.symm, h2.symm, by rw [← h3]; rfl⟩
              | none =>
                simp only [hC] at h
                cases hr : randIdx with
                | error err =>
                  simp only [hr, Outcome.ret.injEq, Prod.mk.injEq] at h
                  obtain ⟨h1, h2, h3⟩ := h
                  exact Or.inl ⟨h1.symm, h2.symm, by rw [← h3]; rfl⟩
                | ok idx =>
                  simp only [hr, Outcome.ret.injEq, Prod.mk.injEq] at h
                  obtain ⟨h1, h2, h3⟩ := h
                  exact Or.inr ⟨d, bs, n, idx, rfl, hb, ha, hl, rfl, h1.symm, h2.symm,
                    h3.symm⟩
          · have hl2 : s.cache.Get n now = false := by simpa using hl
            simp only [hl2, Bool.not_false, if_true, Outcome.ret.injEq, Prod.mk.injEq] at h
            obtain ⟨h1, h2, h3⟩ := h
            exact Or.inl ⟨h1.symm, h2.symm, by rw [← h3]; rfl⟩
    · have hc2 : EqualFold SimpleFold d.Client client = false := by simpa using hc
      simp only [hc2, Bool.not_false, if_true, Outcome.ret.injEq, Prod.mk.injEq] at h
      obtain ⟨h1, h2, h3⟩ := h
      exact Or.inl ⟨h1.symm, h2.symm, by rw [← h3]; rfl⟩

/-- C2: with a matching client, handleRequestResource fails with errValueNotFoundInCache
whenever the nonce decoded from the payload is not live in the ledger; a successful
handleRequestResource leaves that nonce absent from the ledger at every later instant, so the
same payload submitted again to the resulting server (no re-issue in between) fails with
errValueNotFoundInCache, whatever the clock, the fuel and the random index are. -/
theorem handleRequestResource_nonce_once (SimpleFold : Nat → Nat) (json : JSON) (s : Server)
    (msg : Message) (client : String) (randIdx : Except Error (Fin quotes.length))
    (now : Int) (fuel : Nat) (d : Data) (bs : List Nat) (n : Int)
    (hd : json.Unmarshal msg.Payload = .ok d) (hc : EqualFold SimpleFold d.Client client = true)
    (hb : DecodeString d.Rand = .ok bs) (ha : Atoi bs = .ok n) :
    (s.cache.Get n now = false →
      handleRequestResource SimpleFold json s msg client randIdx now fuel =
        .ret (s, (none, some errValueNotFoundInCache))) ∧
    (∀ (s2 : Server) (m : Message),
      handleRequestResource SimpleFold json s msg client randIdx now fuel =
        .ret (s2, (some m, none)) →
      s2 = { s with cache := s.cache.Delete n } ∧
      (∀ now2, s2.cache.Get n now2 = false) ∧
      ∀ (randIdx2 : Except Error (Fin quotes.length)) (now2 : Int) (fuel2 : Nat),
        handleRequestResource SimpleFold json s2 msg client randIdx2 now2 fuel2 =
          .ret (s2, (none, some errValueNotFoundInCache))) := by
  have hmiss : ∀ (t : Server) (ri : Except Error (Fin quotes.length)) (nw : Int) (fl : Nat),
      t.cache.Get n nw = false →
      handleRequestResource SimpleFold json t msg client ri nw fl =
        .ret (t, (none, some errValueNotFoundInCache)) := by
    intro t ri nw fl hl
    unfold handleRequestResource
    simp only [hd, hc, hb, ha, hl, Bool.not_true, Bool.false_eq_true, if_false, Bool.not_false,
      if_true]
  refine ⟨hmiss s randIdx now fuel, ?_⟩
  intro s2 m h
  rcases handleRequestResource_cases SimpleFold json s msg client randIdx now fuel s2 _ _ h
    with ⟨_, hm, _⟩ | ⟨d2, bs2, n2, idx, hd2, hb2, ha2, _, _, hs2, _, _⟩
  · exact absurd hm (by simp)
  · rw [hd] at hd2
    cases hd2
    rw [hb] at hb2
    cases hb2
    rw [ha] at ha2
    cases ha2
    have hgone : ∀ now2, s2.cache.Get n now2 = false := by
      intro now2
      rw [hs2]
      exact Cache_Get_Delete s.cache n now2
    exact ⟨hs2, hgone, fun ri nw fl => hmiss s2 ri nw fl (hgone nw)⟩

/-- C2, on the solved payload: the first submission is served and removes nonce 12345, the
second one fails with errValueNotFoundInCache. -/
theorem handleRequestResource_nonce_once_witness :
    handleRequestResource simpleFoldASCII goJSONCodec exServer
        ⟨MessageTypeRequestResource, solvedPayload⟩ "127.0.0.1:5000" (.ok ⟨3, by decide⟩) 50 1 =
        .ret ({ exServer with cache := [⟨123460, some 100⟩] },
          (some ⟨MessageTypeResponseSource, quotes[3]⟩, none)) ∧
      handleRequestResource simpleFoldASCII goJSONCodec
        { exServer with cache := [⟨123460, some 100⟩] }
        ⟨MessageTypeRequestResource, solvedPayload⟩ "127.0.0.1:5000" (.ok ⟨3, by decide⟩) 60 1 =
        .ret ({ exServer with cache := [⟨123460, some 100⟩] },
          (none, some errValueNotFoundInCache)) :=
  ⟨by decide,
    ((handleRequestResource_nonce_once simpleFoldASCII goJSONCodec exServer
      ⟨MessageTypeRequestResource, solvedPayload⟩ "127.0.0.1:5000" (.ok ⟨3, by decide⟩) 50 1
      ⟨1, 1700000004, "127.0.0.1:5000", "MTIzNDU=", 1⟩ (bytes "12345") 12345
      (by decide) (by decide) (by decide) (by decide)).2
      { exServer with cache := [⟨123460, some 100⟩] }
      ⟨MessageTypeResponseSource, quotes[3]⟩ (by decide)).2.2 (.ok ⟨3, by decide⟩) 60 1⟩

/-- C5: whenever handleRequestResource returns an error, the server and with it the nonce
ledger are exactly as before the call, and no message is returned; a call that changes the
ledger returned success.  Each of the listed failures is such an error return: undecodable
payload, client mismatch, malformed nonce (base64 or number), nonce not found, failed proof
of work, and failure of the random source. -/
theorem handleRequestResource_error_keeps_ledger (SimpleFold : Nat → Nat) (json : JSON)
    (s : Server) (msg : Message) (client : String)
    (randIdx : Except Error (Fin quotes.length)) (now : Int) (fuel : Nat) :
    (∀ (s2 : Server) (m : Option Message) (err : Error),
      handleRequestResource SimpleFold json s msg client randIdx now fuel =
        .ret (s2, (m, some err)) → s2 = s ∧ s2.cache = s.cache ∧ m = none) ∧
    (∀ (s2 : Server) (m : Option Message) (e : Option Error),
      handleRequestResource SimpleFold json s msg client randIdx now fuel =
        .ret (s2, (m, e)) → s2.cache ≠ s.cache → e = none ∧ m.isSome = true) ∧
    (∀ err, json.Unmarshal msg.Payload = .error err →
      handleRequestResource SimpleFold json s msg client randIdx now fuel =
        .ret (s, (none, some (Error.Errorf "unmarshal hashcash: " err)))) ∧
    (∀ d, json.Unmarshal msg.Payload = .ok d →
      (EqualFold SimpleFold d.Client client = false →
        handleRequestResource SimpleFold json s msg client randIdx now fuel =
          .ret (s, (none, some errInvalidHashcashClient))) ∧
      (EqualFold SimpleFold d.Client client = true →
        (∀ err, DecodeString d.Rand = .error err →
          handleRequestResource SimpleFold json s msg client randIdx now fuel =
            .ret (s, (none, some (Error.Errorf "decode rand value bytes: " err)))) ∧
        (∀ bs, DecodeString d.Rand = .ok bs →
          (∀ err, Atoi bs = .error err →
            handleRequestResource SimpleFold json s msg client randIdx now fuel =
              .ret (s, (none, some (Error.Errorf "convert rand value to int: " err)))) ∧
          (∀ n, Atoi bs = .ok n →
            (s.cache.Get n now = false →
              handleRequestResource SimpleFold json s msg client randIdx now fuel =
                .ret (s, (none, some errValueNotFoundInCache))) ∧
            (s.cache.Get n now = true →
              (∀ r err, Data.ComputeHashcash fuel d (if d.Counter = 0 then 1 else d.Counter) =
                  .ret (r, some err) →
                handleRequestResource SimpleFold json s msg client randIdx now fuel =
                  .ret (s, (none, some errInvalidHashcash))) ∧
              (∀ r err, Data.ComputeHashcash fuel d (if d.Counter = 0 then 1 else d.Counter) =
                  .ret (r, none) → randIdx = .error err →
                handleRequestResource SimpleFold json s msg client randIdx now fuel =
                  .ret (s, (none, some (Error.Errorf "generate rand value: " err))))))))) := by
  refine ⟨?_, ?_, ?_, ?_⟩
  · intro s2 m err h
    rcases handleRequestResource_cases SimpleFold json s msg client randIdx now fuel s2 _ _ h
      with ⟨h1, h2, _⟩ | ⟨_, _, _, _, _, _, _, _, _, _, _, h3⟩
    · exact ⟨h1, by rw [h1], h2⟩
    · exact absurd h3 (by simp)
  · intro s2 m e h hne
    rcases handleRequestResource_cases SimpleFold json s msg client randIdx now fuel s2 _ _ h
      with ⟨h1, _, _⟩ | ⟨_, _, _, _, _, _, _, _, _, _, h2, h3⟩
    · exact absurd (by rw [h1]) hne
    · exact ⟨h3, by rw [h2]; rfl⟩
  · intro err hd
    unfold handleRequestResource
    simp only [hd]
  · intro d hd
    refine ⟨fun hc => handleRequestResource_wrong_client_aux SimpleFold json s msg client
      randIdx now fuel d hd hc, fun hc => ⟨?_, ?_⟩⟩
    · intro err hb
      unfold handleRequestResource
      simp only [hd, hc, hb, Bool.not_true, Bool.false_eq_true, if_false]
    · intro bs hb
      refine ⟨?_, ?_⟩
      · intro err ha
        unfold handleRequestResource
        simp only [hd, hc, hb, ha, Bool.not_true, Bool.false_eq_true, if_false]
      · intro n ha
        refine ⟨?_, ?_⟩
        · intro hl
          unfold handleRequestResource
          simp only [hd, hc, hb, ha, hl, Bool.not_true, Bool.false_eq_true, if_false,
            Bool.not_false, if_true]
        · intro hl
          have hv := handleRequestResource_verified SimpleFold json s msg client randIdx now
            fuel d bs n hd hc hb ha hl
          refine ⟨?_, ?_⟩
          · intro r err hC
            rw [hv, hC]
          · intro r err hC hr
            rw [hv, hC, hr]

/-- C5, on the unsolved payload of the repository test: the failed proof of work leaves the
server, and nonce 123460 in it, untouched. -/
theorem handleRequestResource_error_keeps_ledger_witness :
    handleRequestResource simpleFoldASCII goJSONCodec exServer
        ⟨MessageTypeRequestResource, unsolvedPayload⟩ "client1" (.ok ⟨0, by decide⟩) 50 4 =
        .ret (exServer, (none, some errInvalidHashcash)) ∧
      exServer.cache.Get 123460 50 = true :=
  ⟨by decide, by
    have h := (handleRequestResource_error_keeps_ledger simpleFoldASCII goJSONCodec exServer
      ⟨MessageTypeRequestResource, unsolvedPayload⟩ "client1" (.ok ⟨0, by decide⟩) 50 4).1
      exServer none errInvalidHashcash (by decide)
    rw [← h.2.1]
    decide⟩

end server

namespace server

open hashcash domain

theorem Cache_Get_Set (c : Cache) (key now exp now1 : Int) :
    Cache.Get (Cache.Set c key now exp) key now1 = true ↔ now1 ≤ now + exp := by
  unfold Cache.Get Cache.Set
  simp only [List.find?_cons, decide_True, Item.Expired]
  simp

/-- C3: for every server state, every configured zerosCount and every client address,
handleRequestChallenge (its random source and JSON encoder working) answers
response_challenge with the encoding of a challenge whose ZerosCount is the configured
value, whose Client is the address and whose Counter is 0, and stores the nonce in the
ledger, where it is live exactly at the instants up to the issue instant plus the configured
duration in seconds (wrapped to 64 bits), so a zero or negative duration leaves it expired
at every later instant.  If ComputeHashcash then solves that challenge, and a
payload decoding to the solved challenge is submitted by the same client address to a
server in whose ledger the nonce is live, handleRequestResource (random source working,
one unit of fuel) redeems the nonce and answers response_source with a member of the
quote list. -/
theorem challenge_then_resource (SimpleFold : Nat → Nat) (json : JSON) (s : Server)
    (reqMsg : Message) (client : String) (r : Fin 100000) (now : Int) (payload : String)
    (hm : json.Marshal ⟨s.zerosCount, now / Second, client,
      EncodeToString (bytes (formatNat r.val)), 0⟩ = .ok payload) :
    handleRequestChallenge json s reqMsg client (.ok r) now =
        ({ s with cache :=
            s.cache.Set (r.val : Int) now (wrapInt64 (Second * s.hashcashDuration)) },
          (some ⟨MessageTypeResponseChallenge, payload⟩, none)) ∧
      (∃ item ∈ s.cache.Set (r.val : Int) now (wrapInt64 (Second * s.hashcashDuration)),
        item.Key = (r.val : Int)) ∧
      (∀ now1,
        (s.cache.Set (r.val : Int) now (wrapInt64 (Second * s.hashcashDuration))).Get
            (r.val : Int) now1 = true ↔
          now1 ≤ now + wrapInt64 (Second * s.hashcashDuration)) ∧
      ∀ (fuel : Nat) (maxIterations : Int) (d1 : Data),
        Data.ComputeHashcash fuel ⟨s.zerosCount, now / Second, client,
          EncodeToString (bytes (formatNat r.val)), 0⟩ maxIterations = .ret (d1, none) →
        ∀ (s2 : Server) (msg2 : Message) (idx : Fin quotes.length) (now2 : Int) (fuel2 : Nat),
          json.Unmarshal msg2.Payload = .ok d1 → s2.cache.Get (r.val : Int) now2 = true →
          0 < fuel2 →
          handleRequestResource SimpleFold json s2 msg2 client (.ok idx) now2 fuel2 =
              .ret ({ s2 with cache := s2.cache.Delete (r.val : Int) },
                (some ⟨MessageTypeResponseSource, quotes[idx]⟩, none)) ∧
            quotes[idx] ∈ quotes := by
  refine ⟨?_, ?_, ?_, ?_⟩
  · unfold handleRequestChallenge
    simp only [hm]
  · exact ⟨_, List.mem_cons_self _ _, rfl⟩
  · intro now1
    exact Cache_Get_Set _ _ _ _ _
  · intro fuel maxIterations d1 hsolve s2 msg2 idx now2 fuel2 hd hl hfuel
    obtain ⟨hz, _, hcl, hrand⟩ := ComputeHashcash_fields _ _ _ _ _ hsolve
    simp only at hz hcl hrand
    have hok := ComputeHashcash_ok_correct _ _ _ _ hsolve
    have hr : (r.val : Int) ≤ maxInt64 := by
      have := r.isLt
      unfold maxInt64
      omega
    obtain ⟨hdec, hatoi⟩ := nonce_roundtrip r.val hr
    have hv := handleRequestResource_verified SimpleFold json s2 msg2 client (.ok idx) now2
      fuel2 d1 (bytes (formatNat r.val)) (r.val : Int) hd
      (by rw [hcl]; exact EqualFold_refl SimpleFold client)
      (by rw [hrand]; exact hdec) hatoi hl
    obtain ⟨f, rfl⟩ : ∃ f, fuel2 = f + 1 := ⟨fuel2 - 1, by omega⟩
    have hC : Data.ComputeHashcash (f + 1) d1 (if d1.Counter = 0 then 1 else d1.Counter) =
        .ret (d1, none) := by
      rw [Data.ComputeHashcash]
      have hcond : d1.Counter ≤ (if d1.Counter = 0 then 1 else d1.Counter) ∨
          (if d1.Counter = 0 then 1 else d1.Counter) ≤ 0 := by
        left
        split_ifs with h0
        · rw [h0]; decide
        · exact le_refl _
      simp only [hcond, if_true, hok]
    rw [hv, hC]
    exact ⟨rfl, List.getElem_mem _⟩

/-- C3, on a server configured with one zero: nonce 12345 is issued to `127.0.0.1:5000`, the
client finds counter 1, and the solved payload is served one second later; the nonce is dead
thirty-one seconds after its issue, and a nonce issued with duration 0 or -5 is dead one
nanosecond after its issue. -/
theorem challenge_then_resource_witness :
    handleRequestChallenge goJSONCodec ⟨"localhost", 8080, 1, 30, []⟩
        ⟨MessageTypeRequestChallenge, ""⟩ "127.0.0.1:5000" (.ok ⟨12345, by decide⟩)
        1700000004000000000 =
        (⟨"localhost", 8080, 1, 30, [⟨12345, some 1700000034000000000⟩]⟩,
          (some ⟨MessageTypeResponseChallenge, luckyPayload⟩, none)) ∧
      Data.ComputeHashcash 5 ⟨1, 1700000004, "127.0.0.1:5000", "MTIzNDU=", 0⟩ 1000000 =
        .ret (⟨1, 1700000004, "127.0.0.1:5000", "MTIzNDU=", 1⟩, none) ∧
      handleRequestResource simpleFoldASCII goJSONCodec
        ⟨"localhost", 8080, 1, 30, [⟨12345, some 1700000034000000000⟩]⟩
        ⟨MessageTypeRequestResource, solvedPayload⟩ "127.0.0.1:5000" (.ok ⟨3, by decide⟩)
        1700000005000000000 1 =
        .ret (⟨"localhost", 8080, 1, 30, []⟩,
          (some ⟨MessageTypeResponseSource, quotes[3]⟩, none)) ∧
      Cache.Get [⟨12345, some 1700000034000000000⟩] 12345 1700000035000000000 = false ∧
      Cache.Get (Cache.Set [] 12345 1700000004000000000 (wrapInt64 (Second * 0))) 12345
        1700000004000000001 = false ∧
      Cache.Get (Cache.Set [] 12345 1700000004000000000 (wrapInt64 (Second * (-5)))) 12345
        1700000004000000001 = false :=
  ⟨by decide, by decide,
    ((challenge_then_resource simpleFoldASCII goJSONCodec ⟨"localhost", 8080, 1, 30, []⟩
      ⟨MessageTypeRequestChallenge, ""⟩ "127.0.0.1:5000" ⟨12345, by decide⟩
      1700000004000000000 luckyPayload (by decide)).2.2.2 5 1000000
      ⟨1, 1700000004, "127.0.0.1:5000", "MTIzNDU=", 1⟩ (by decide)
      ⟨"localhost", 8080, 1, 30, [⟨12345, some 1700000034000000000⟩]⟩
      ⟨MessageTypeRequestResource, solvedPayload⟩ ⟨3, by decide⟩ 1700000005000000000 1
      (by decide) (by decide) (by decide)).1,
    by decide, by decide, by decide⟩

end server

/-! ## Theorems: framing and type validation -/

namespace domain

theorem length_splitChars (sep : Char) (cs : List Char) :
    (splitChars sep cs).length = cs.count sep + 1 := by
  induction cs with
  | nil => rfl
  | cons c t ih =>
    unfold splitChars
    by_cases h : c = sep
    · subst h
      simp [ih]
    · have hne : (c == sep) = false := by simpa using h
      simp only [h, if_false, List.count_cons, hne]
      cases hs : splitChars sep t with
      | nil => rw [hs] at ih; simp at ih
      | cons p ps => rw [hs] at ih; simpa using ih

theorem length_Split (s : String) (sep : Char) :
    (Split s sep).length = s.toList.count sep + 1 := by
  simp [Split, length_splitChars]

/-- The parts of a line with at most one separator: the text before it and the text after it. -/
theorem splitChars_of_count_le_one (sep : Char) (cs : List Char) (h : cs.count sep ≤ 1) :
    splitChars sep cs =
      if sep ∈ cs then
        [cs.takeWhile (fun c => decide (c ≠ sep)),
          (cs.dropWhile (fun c => decide (c ≠ sep))).drop 1]
      else [cs] := by
  induction cs with
  | nil => simp [splitChars]
  | cons c t ih =>
    by_cases hc : c = sep
    · subst hc
      have ht : c ∉ t := by
        intro hmem
        have := List.count_pos_iff.mpr hmem
        simp [List.count_cons] at h
        omega
      simp [splitChars, List.takeWhile, List.dropWhile, splitChars_of_not_mem c t ht]
    · have hne : (c == sep) = false := by simpa using hc
      have hcount : t.count sep ≤ 1 := by
        simpa [List.count_cons, hne] using h
      have hsep : sep ≠ c := fun e => hc e.symm
      unfold splitChars
      simp only [hc, if_false, ih hcount, List.mem_cons, hsep, false_or]
      by_cases hmem : sep ∈ t
      · simp [hmem, List.takeWhile, List.dropWhile, hc]
      · simp [hmem]

theorem isMsgTypeValid_iff (F : Nat → Nat) (t : String) :
    isMsgTypeValid F t = true ↔ ∃ K ∈ knownTypes, EqualFold F t K = true := by
  unfold isMsgTypeValid knownTypes
  simp only [List.mem_cons, List.mem_singleton, List.not_mem_nil, or_false, exists_eq_or_imp,
    exists_eq_left]
  cases EqualFold F t MessageTypeQuit <;> cases EqualFold F t MessageTypeRequestChallenge <;>
    cases EqualFold F t MessageTypeResponseChallenge <;>
    cases EqualFold F t MessageTypeRequestResource <;>
    cases EqualFold F t MessageTypeResponseSource <;> simp

/-- The three outcomes of `ParseMessage`, by the number of parts and the validity of the
first one. -/
theorem ParseMessage_eq (F : Nat → Nat) (str : String) :
    ParseMessage F str =
      if 2 < (Split (TrimSpace str) '|').length then (none, some (Error.New "invalid format"))
      else if isMsgTypeValid F ((Split (TrimSpace str) '|').getD 0 "") = false then
        (none, some (Error.New "invalid type"))
      else
        (some ⟨(Split (TrimSpace str) '|').getD 0 "",
          if (Split (TrimSpace str) '|').length = 2 then (Split (TrimSpace str) '|').getD 1 ""
          else ""⟩, none) := by
  unfold ParseMessage
  have hlen := length_Split (TrimSpace str) '|'
  have h1 : ¬ (Split (TrimSpace str) '|').length < 1 := by omega
  simp only [h1, false_or, gt_iff_lt]
  by_cases h2 : 2 < (Split (TrimSpace str) '|').length
  · simp [h2]
  · simp only [h2, if_false]
    cases hv : isMsgTypeValid F ((Split (TrimSpace str) '|').getD 0 "")
    · simp
    · by_cases h3 : (Split (TrimSpace str) '|').length = 2 <;> simp [h3]

/-- C11: for every input line, ParseMessage fails with the error "invalid format" exactly
when the white-space-trimmed line splits on `|` into more than two parts, that is exactly
when it holds at least two `|` characters, whatever its type field is; in that case no
message is returned.  The lines `invalid|format|` and `bogus|x|y` followed by a newline are
rejected this way. -/
theorem ParseMessage_invalid_format_iff (SimpleFold : Nat → Nat) (str : String) :
    (Split (TrimSpace str) '|').length = (TrimSpace str).toList.count '|' + 1 ∧
    ((ParseMessage SimpleFold str).2 = some (Error.New "invalid format") ↔
      2 < (Split (TrimSpace str) '|').length) ∧
    ((ParseMessage SimpleFold str).2 = some (Error.New "invalid format") ↔
      2 ≤ (TrimSpace str).toList.count '|') ∧
    (2 ≤ (TrimSpace str).toList.count '|' →
      ParseMessage SimpleFold str = (none, some (Error.New "invalid format"))) ∧
    ParseMessage SimpleFold "invalid|format|" = (none, some (Error.New "invalid format")) ∧
    ParseMessage SimpleFold "bogus|x|y\n" = (none, some (Error.New "invalid format")) := by
  have hlen := length_Split (TrimSpace str) '|'
  have key : ∀ s : String, (ParseMessage SimpleFold s).2 = some (Error.New "invalid format") ↔
      2 < (Split (TrimSpace s) '|').length := by
    intro s
    rw [ParseMessage_eq]
    split_ifs with h1 h2
    · simp [h1]
    · simp only [h1, iff_false]
      decide
    · simp [h1]
  have hfail : ∀ s : String, 2 < (Split (TrimSpace s) '|').length →
      ParseMessage SimpleFold s = (none, some (Error.New "invalid format")) := by
    intro s h
    rw [ParseMessage_eq]
    simp [h]
  refine ⟨hlen, key str, ?_, ?_, hfail _ (by decide), hfail _ (by decide)⟩
  · rw [key str, hlen]
    omega
  · intro h
    exact hfail str (by rw [hlen]; omega)

/-- C12: for every input line with at most one `|` after trimming, ParseMessage fails with
the error "invalid type" if and only if the text before the `|` (the whole trimmed line when
there is none) equals, ignoring letter case, none of quit, request_challenge,
response_challenge, request_resource, response_source; otherwise it succeeds with Type equal
to that text as written and Payload equal to the text after the `|`, the empty string when
there is no `|`. -/
theorem ParseMessage_type_validation (SimpleFold : Nat → Nat) (str : String)
    (h : (TrimSpace str).toList.count '|' ≤ 1) :
    ((ParseMessage SimpleFold str).2 = some (Error.New "invalid type") ↔
      ∀ K ∈ knownTypes, EqualFold SimpleFold
        (String.mk ((TrimSpace str).toList.takeWhile (fun c => decide (c ≠ '|')))) K = false) ∧
    ((∀ K ∈ knownTypes, EqualFold SimpleFold
        (String.mk ((TrimSpace str).toList.takeWhile (fun c => decide (c ≠ '|')))) K = false) →
      ParseMessage SimpleFold str = (none, some (Error.New "invalid type"))) ∧
    ((∃ K ∈ knownTypes, EqualFold SimpleFold
        (String.mk ((TrimSpace str).toList.takeWhile (fun c => decide (c ≠ '|')))) K = true) →
      ParseMessage SimpleFold str =
        (some ⟨String.mk ((TrimSpace str).toList.takeWhile (fun c => decide (c ≠ '|'))),
          String.mk (((TrimSpace str).toList.dropWhile (fun c => decide (c ≠ '|'))).drop 1)⟩,
          none)) := by
  have hlen := length_Split (TrimSpace str) '|'
  have hsplit := splitChars_of_count_le_one '|' (TrimSpace str).toList h
  have h2 : ¬ 2 < (Split (TrimSpace str) '|').length := by omega
  have hparts : (Split (TrimSpace str) '|').getD 0 "" =
        String.mk ((TrimSpace str).toList.takeWhile (fun c => decide (c ≠ '|'))) ∧
      (if (Split (TrimSpace str) '|').length = 2 then (Split (TrimSpace str) '|').getD 1 ""
        else "") =
        String.mk (((TrimSpace str).toList.dropWhile (fun c => decide (c ≠ '|'))).drop 1) := by
    unfold Split
    by_cases hmem : '|' ∈ (TrimSpace str).toList
    · rw [hsplit, if_pos hmem]
      exact ⟨rfl, rfl⟩
    · rw [hsplit, if_neg hmem]
      have hall : ∀ c ∈ (TrimSpace str).toList, decide (c ≠ '|') = true := by
        intro c hc
        simp only [ne_eq, decide_not, Bool.not_eq_true', decide_eq_false_iff_not]
        intro e
        exact hmem (e ▸ hc)
      have htw : (TrimSpace str).toList.takeWhile (fun c => decide (c ≠ '|')) =
          (TrimSpace str).toList := List.takeWhile_eq_self_iff.mpr hall
      have hdw : (TrimSpace str).toList.dropWhile (fun c => decide (c ≠ '|')) = [] :=
        List.dropWhile_eq_nil_iff.mpr hall
      rw [htw, hdw]
      exact ⟨rfl, rfl⟩
  obtain ⟨hp0, hp1⟩ := hparts
  have hform := ParseMessage_eq SimpleFold str
  simp only [h2, if_false, hp0, hp1] at hform
  have hvalid := isMsgTypeValid_iff SimpleFold
    (String.mk ((TrimSpace str).toList.takeWhile (fun c => decide (c ≠ '|'))))
  have hnone : (∀ K ∈ knownTypes, EqualFold SimpleFold
      (String.mk ((TrimSpace str).toList.takeWhile (fun c => decide (c ≠ '|')))) K = false) ↔
      isMsgTypeValid SimpleFold
        (String.mk ((TrimSpace str).toList.takeWhile (fun c => decide (c ≠ '|')))) = false := by
    rw [← Bool.not_eq_true, hvalid]
    simp
  refine ⟨?_, ?_, ?_⟩
  · rw [hnone, hform]
    split_ifs with hv
    · exact ⟨fun _ => hv, fun _ => rfl⟩
    · exact ⟨fun hh => by simp at hh, fun hh => absurd hh hv⟩
  · intro hk
    rw [hform, if_pos (hnone.mp hk)]
  · intro hk
    have hv := hvalid.mpr hk
    rw [hform, if_neg (by rw [hv]; decide)]

/-- C12, on a line of the repository test, on a type in upper case without payload, and on
an unknown type. -/
theorem ParseMessage_type_validation_witness :
    ParseMessage simpleFoldASCII "request_challenge|payload_data" =
        (some ⟨"request_challenge", "payload_data"⟩, none) ∧
      ParseMessage simpleFoldASCII " QUIT\r\n" = (some ⟨"QUIT", ""⟩, none) ∧
      ParseMessage simpleFoldASCII "invalid_type|payload_data" =
        (none, some (Error.New "invalid type")) :=
  ⟨(ParseMessage_type_validation simpleFoldASCII "request_challenge|payload_data"
      (by decide)).2.2 ⟨MessageTypeRequestChallenge, by decide, by decide⟩,
    (ParseMessage_type_validation simpleFoldASCII " QUIT\r\n" (by decide)).2.2
      ⟨MessageTypeQuit, by decide, by decide⟩,
    (ParseMessage_type_validation simpleFoldASCII "invalid_type|payload_data"
      (by decide)).2.1 (by decide)⟩

end domain

/-! ## Theorems: dispatch and the unvalidated fields of the payload -/

namespace server

open hashcash domain

/-- The dispatch of `processMessage` compares the type with the three constants exactly. -/
theorem processMessage_exact (F : Nat → Nat) (json : JSON) (s : Server) (msg : Message)
    (client : String) (randValue : Except Error (Fin 100000))
    (randIdx : Except Error (Fin quotes.length)) (now : Int) (fuel : Nat) :
    (msg.Typ = MessageTypeQuit →
      processMessage F json s msg client randValue randIdx now fuel =
        .ret (s, (none, some errQuit))) ∧
    (msg.Typ = MessageTypeRequestChallenge →
      processMessage F json s msg client randValue randIdx now fuel =
        .ret (handleRequestChallenge json s msg client randValue now)) ∧
    (msg.Typ = MessageTypeRequestResource →
      processMessage F json s msg client randValue randIdx now fuel =
        handleRequestResource F json s msg client randIdx now fuel) ∧
    (msg.Typ ≠ MessageTypeQuit → msg.Typ ≠ MessageTypeRequestChallenge →
      msg.Typ ≠ MessageTypeRequestResource →
      processMessage F json s msg client randValue randIdx now fuel =
        .ret (s, (none, some errInvalidMessageType))) := by
  have hqc : MessageTypeRequestChallenge ≠ MessageTypeQuit := by decide
  have hqr : MessageTypeRequestResource ≠ MessageTypeQuit := by decide
  have hcr : MessageTypeRequestResource ≠ MessageTypeRequestChallenge := by decide
  refine ⟨?_, ?_, ?_, ?_⟩
  · intro h
    unfold processMessage
    simp only [h, if_true]
  · intro h
    unfold processMessage
    simp only [h, hqc, if_false, if_true]
  · intro h
    unfold processMessage
    simp only [h, hqr, hcr, if_false, if_true]
  · intro h1 h2 h3
    unfold processMessage
    simp only [h1, h2, h3, if_false]

/-- C13, evaluated where the code departs from it.  The lines `QUIT`, `Request_Challenge` and
`REQUEST_RESOURCE` pass ParseMessage, whose type check ignores letter case, and their types
equal quit, request_challenge and request_resource ignoring letter case; processMessage,
which compares the type exactly, answers each of them with no message and
errInvalidMessageType instead of errQuit or a dispatch to the handler. -/
theorem processMessage_rejects_other_casing :
    ParseMessage simpleFoldASCII "QUIT\n" = (some ⟨"QUIT", ""⟩, none) ∧
    ParseMessage simpleFoldASCII "Request_Challenge|\n" =
      (some ⟨"Request_Challenge", ""⟩, none) ∧
    EqualFold simpleFoldASCII "QUIT" MessageTypeQuit = true ∧
    EqualFold simpleFoldASCII "Request_Challenge" MessageTypeRequestChallenge = true ∧
    EqualFold simpleFoldASCII "REQUEST_RESOURCE" MessageTypeRequestResource = true ∧
    ∀ (s : Server) (payload client : String) (randValue : Except Error (Fin 100000))
      (randIdx : Except Error (Fin quotes.length)) (now : Int) (fuel : Nat),
      processMessage simpleFoldASCII goJSONCodec s ⟨"QUIT", payload⟩ client randValue randIdx
          now fuel = .ret (s, (none, some errInvalidMessageType)) ∧
      processMessage simpleFoldASCII goJSONCodec s ⟨"Request_Challenge", payload⟩ client
          randValue randIdx now fuel = .ret (s, (none, some errInvalidMessageType)) ∧
      processMessage simpleFoldASCII goJSONCodec s ⟨"REQUEST_RESOURCE", payload⟩ client
          randValue randIdx now fuel = .ret (s, (none, some errInvalidMessageType)) := by
  refine ⟨by decide, by decide, by decide, by decide, by decide, ?_⟩
  intro s payload client randValue randIdx now fuel
  exact ⟨(processMessage_exact _ _ _ _ _ _ _ _ _).2.2.2
      (show ("QUIT" : String) ≠ MessageTypeQuit by decide)
      (show ("QUIT" : String) ≠ MessageTypeRequestChallenge by decide)
      (show ("QUIT" : String) ≠ MessageTypeRequestResource by decide),
    (processMessage_exact _ _ _ _ _ _ _ _ _).2.2.2
      (show ("Request_Challenge" : String) ≠ MessageTypeQuit by decide)
      (show ("Request_Challenge" : String) ≠ MessageTypeRequestChallenge by decide)
      (show ("Request_Challenge" : String) ≠ MessageTypeRequestResource by decide),
    (processMessage_exact _ _ _ _ _ _ _ _ _).2.2.2
      (show ("REQUEST_RESOURCE" : String) ≠ MessageTypeQuit by decide)
      (show ("REQUEST_RESOURCE" : String) ≠ MessageTypeRequestChallenge by decide)
      (show ("REQUEST_RESOURCE" : String) ≠ MessageTypeRequestResource by decide)⟩

/-- The bound handed to the verification loop never stops the first iteration. -/
theorem verify_cond (c : Int) :
    c ≤ (if c = 0 then 1 else c) ∨ (if c = 0 then (1 : Int) else c) ≤ 0 := by
  left
  split_ifs with h
  · rw [h]; decide
  · exact le_refl _

theorem isHashCorrect_zero (hash : String) : isHashCorrect hash 0 = .ret true := by
  have := (isHashCorrect_ret_true_iff hash 0).mpr ⟨Nat.zero_le _, fun i hi => absurd hi (by omega)⟩
  simpa using this

/-- With a bound of zero or less the loop has no error return. -/
theorem ComputeHashcash_nonpos_ret (fuel : Nat) (d : Data) (maxIterations : Int)
    (hmax : maxIterations ≤ 0) (r : Data) (e : Option Error)
    (h : Data.ComputeHashcash fuel d maxIterations = .ret (r, e)) : e = none := by
  induction fuel generalizing d with
  | zero => simp [Data.ComputeHashcash] at h
  | succ n ih =>
    rw [Data.ComputeHashcash] at h
    have hc : d.Counter ≤ maxIterations ∨ maxIterations ≤ 0 := Or.inr hmax
    simp only [hc, if_true] at h
    cases hq : isHashCorrect (sha1Hash d.String) d.ZerosCount with
    | ret b =>
      cases b with
      | true =>
        simp only [hq, Outcome.ret.injEq, Prod.mk.injEq] at h
        exact h.2.symm
      | false =>
        simp only [hq] at h
        exact ih _ h
    | panic => simp [hq] at h
    | outOfFuel => simp [hq] at h

/-- The server's configured difficulty is not read by the resource handler. -/
theorem handleRequestResource_zerosCount_irrelevant (F : Nat → Nat) (json : JSON)
    (s : Server) (msg : Message) (client : String)
    (randIdx : Except Error (Fin quotes.length)) (now : Int) (fuel : Nat) (z : Int) :
    handleRequestResource F json { s with zerosCount := z } msg client randIdx now fuel =
      match handleRequestResource F json s msg client randIdx now fuel with
      | .ret (s2, r) => .ret ({ s2 with zerosCount := z }, r)
      | .panic => .panic
      | .outOfFuel => .outOfFuel := by
  unfold handleRequestResource
  cases json.Unmarshal msg.Payload with
  | error err => rfl
  | ok d =>
    simp only
    by_cases hc : EqualFold F d.Client client = true
    · simp only [hc, Bool.not_true, Bool.false_eq_true, if_false]
      cases DecodeString d.Rand with
      | error err => rfl
      | ok bs =>
        simp only
        cases Atoi bs with
        | error err => rfl
        | ok n =>
          simp only
          by_cases hl : s.cache.Get n now = true
          · simp only [hl, Bool.not_true, Bool.false_eq_true, if_false]
            cases Data.ComputeHashcash fuel d (if d.Counter = 0 then 1 else d.Counter) with
            | panic => rfl
            | outOfFuel => rfl
            | ret x =>
              obtain ⟨r, oe⟩ := x
              cases oe with
              | some e2 => rfl
              | none =>
                simp only
                cases randIdx with
                | error err => rfl
                | ok idx => rfl
          · have hl2 : s.cache.Get n now = false := by simpa using hl
            simp only [hl2, Bool.not_false, if_true]
    · have hc2 : EqualFold F d.Client client = false := by simpa using hc
      simp only [hc2, Bool.not_false, if_true]

/-- C14: the difficulty is taken from the client's payload, not from the server.
handleRequestResource gives the same result (message and error, and the same ledger) on two
servers that differ only in their configured zerosCount; and every payload with
ZerosCount 0, a matching Client and a live nonce is accepted for every Counter (the random
source working, with one unit of fuel), no hash with a leading zero having been found. -/
theorem handleRequestResource_difficulty_from_payload (SimpleFold : Nat → Nat) (json : JSON)
    (s : Server) (msg : Message) (client : String)
    (randIdx : Except Error (Fin quotes.length)) (now : Int) (fuel : Nat) :
    (∀ z : Int,
      handleRequestResource SimpleFold json { s with zerosCount := z } msg client randIdx now
          fuel =
        match handleRequestResource SimpleFold json s msg client randIdx now fuel with
        | .ret (s2, r) => .ret ({ s2 with zerosCount := z }, r)
        | .panic => .panic
        | .outOfFuel => .outOfFuel) ∧
    (∀ (d : Data) (bs : List Nat) (n : Int) (idx : Fin quotes.length),
      json.Unmarshal msg.Payload = .ok d → EqualFold SimpleFold d.Client client = true →
      DecodeString d.Rand = .ok bs → Atoi bs = .ok n → s.cache.Get n now = true →
      d.ZerosCount = 0 → randIdx = .ok idx → 0 < fuel →
      handleRequestResource SimpleFold json s msg client randIdx now fuel =
        .ret ({ s with cache := s.cache.Delete n },
          (some ⟨MessageTypeResponseSource, quotes[idx]⟩, none))) := by
  refine ⟨fun z => handleRequestResource_zerosCount_irrelevant SimpleFold json s msg client
    randIdx now fuel z, ?_⟩
  intro d bs n idx hd hc hb ha hl hz hr hfuel
  rw [handleRequestResource_verified SimpleFold json s msg client randIdx now fuel d bs n
    hd hc hb ha hl]
  obtain ⟨f, rfl⟩ : ∃ f, fuel = f + 1 := ⟨fuel - 1, by omega⟩
  have hC : Data.ComputeHashcash (f + 1) d (if d.Counter = 0 then 1 else d.Counter) =
      .ret (d, none) := by
    rw [Data.ComputeHashcash]
    simp only [verify_cond d.Counter, if_true, hz, isHashCorrect_zero]
  rw [hC, hr]

/-- C14, on a payload with ZerosCount 0 and counter 777, sent to a server configured with
three zeros: it is served, although its hash starts with no zero. -/
theorem handleRequestResource_difficulty_from_payload_witness :
    (sha1Hash (Data.String ⟨0, 1700000004, "127.0.0.1:5000", "MTIzNDU=", 777⟩)).toList.head?
        ≠ some '0' ∧
      exServer.zerosCount = 3 ∧
      handleRequestResource simpleFoldASCII goJSONCodec exServer
        ⟨MessageTypeRequestResource, zeroDifficultyPayload⟩ "127.0.0.1:5000"
        (.ok ⟨3, by decide⟩) 50 1 =
        .ret ({ exServer with cache := exServer.cache.Delete 12345 },
          (some ⟨MessageTypeResponseSource, quotes[3]⟩, none)) :=
  ⟨by decide, by decide,
    (handleRequestResource_difficulty_from_payload simpleFoldASCII goJSONCodec exServer
      ⟨MessageTypeRequestResource, zeroDifficultyPayload⟩ "127.0.0.1:5000"
      (.ok ⟨3, by decide⟩) 50 1).2 ⟨0, 1700000004, "127.0.0.1:5000", "MTIzNDU=", 777⟩
      (bytes "12345") 12345 ⟨3, by decide⟩ (by decide) (by decide) (by decide) (by decide)
      (by decide) (by decide) rfl (by decide)⟩

/-- C15: for every payload with a negative Counter, a matching Client and a live nonce,
handleRequestResource runs ComputeHashcash with maxIterations equal to that Counter, hence
without bound: it never fails with errInvalidHashcash, and whenever it returns (the random
source working) it has accepted the request and redeemed the nonce, whatever the hash at
the submitted Counter is.  It does return, with enough fuel, when some counter from the
submitted one up to the largest int qualifies. -/
theorem handleRequestResource_negative_counter (SimpleFold : Nat → Nat) (json : JSON)
    (s : Server) (msg : Message) (client : String)
    (randIdx : Except Error (Fin quotes.length)) (now : Int) (fuel : Nat) (d : Data)
    (bs : List Nat) (n : Int)
    (hd : json.Unmarshal msg.Payload = .ok d) (hc : EqualFold SimpleFold d.Client client = true)
    (hb : DecodeString d.Rand = .ok bs) (ha : Atoi bs = .ok n)
    (hl : s.cache.Get n now = true) (hneg : d.Counter < 0) :
    (handleRequestResource SimpleFold json s msg client randIdx now fuel =
      match Data.ComputeHashcash fuel d d.Counter with
      | .panic => .panic
      | .outOfFuel => .outOfFuel
      | .ret (_, some _) => .ret (s, (none, some errInvalidHashcash))
      | .ret (_, none) =>
        match randIdx with
        | .error err => .ret (s, (none, some (Error.Errorf "generate rand value: " err)))
        | .ok randIdx =>
          .ret ({ s with cache := s.cache.Delete n },
            (some { Typ := MessageTypeResponseSource, Payload := quotes[randIdx] }, none))) ∧
    (∀ (s2 : Server) (m : Option Message),
      handleRequestResource SimpleFold json s msg client randIdx now fuel ≠
        .ret (s2, (m, some errInvalidHashcash))) ∧
    (∀ idx, randIdx = .ok idx →
      ∀ x, handleRequestResource SimpleFold json s msg client randIdx now fuel = .ret x →
        x = ({ s with cache := s.cache.Delete n },
          (some ⟨MessageTypeResponseSource, quotes[idx]⟩, none))) ∧
    (∀ (idx : Fin quotes.length) (k : Int), randIdx = .ok idx → minInt64 ≤ d.Counter →
      d.Counter ≤ k → k ≤ maxInt64 → qualifies d k →
      (∀ j : Int, d.Counter ≤ j → j < k → ¬ qualifies d j) →
      (k - d.Counter).toNat < fuel →
      handleRequestResource SimpleFold json s msg client randIdx now fuel =
        .ret ({ s with cache := s.cache.Delete n },
          (some ⟨MessageTypeResponseSource, quotes[idx]⟩, none))) := by
  have hne : d.Counter ≠ 0 := by omega
  have hv := handleRequestResource_verified SimpleFold json s msg client randIdx now fuel d bs n
    hd hc hb ha hl
  simp only [hne, if_false] at hv
  have hmax : d.Counter ≤ 0 := by omega
  refine ⟨hv, ?_, ?_, ?_⟩
  · intro s2 m h
    rw [hv] at h
    cases hC : Data.ComputeHashcash fuel d d.Counter with
    | panic => simp [hC] at h
    | outOfFuel => simp [hC] at h
    | ret x =>
      obtain ⟨r, oe⟩ := x
      have hnone := ComputeHashcash_nonpos_ret fuel d d.Counter hmax r oe hC
      subst hnone
      simp only [hC] at h
      cases hr : randIdx with
      | error err =>
        simp only [hr, Outcome.ret.injEq, Prod.mk.injEq] at h
        exact absurd h.2.2 (by simp [errInvalidHashcash])
      | ok idx =>
        simp only [hr, Outcome.ret.injEq, Prod.mk.injEq] at h
        exact absurd h.2.2 (by simp)
  · intro idx hr x h
    rw [hv] at h
    cases hC : Data.ComputeHashcash fuel d d.Counter with
    | panic => simp [hC] at h
    | outOfFuel => simp [hC] at h
    | ret y =>
      obtain ⟨r, oe⟩ := y
      have hnone := ComputeHashcash_nonpos_ret fuel d d.Counter hmax r oe hC
      subst hnone
      simp only [hC, hr, Outcome.ret.injEq] at h
      exact h.symm
  · intro idx k hr hlo hk hkmax hq hleast hfuel
    rw [hv]
    obtain ⟨f, hf⟩ : ∃ f, fuel = (f + 1) + (k - d.Counter).toNat :=
      ⟨fuel - (k - d.Counter).toNat - 1, by omega⟩
    have hcast : ((k - d.Counter).toNat : Int) = k - d.Counter := Int.toNat_of_nonneg (by omega)
    have hskip := ComputeHashcash_skip (k - d.Counter).toNat (f + 1) d d.Counter hlo
      (by rw [hcast]; omega)
      (fun j _ _ => Or.inr hmax)
      (fun j h1 h2 => not_qualifies_ret_false d k j hq (hleast j h1 (by rw [hcast] at h2; omega)))
    have hk2 : d.Counter + ((k - d.Counter).toNat : Int) = k := by rw [hcast]; omega
    have hC : Data.ComputeHashcash fuel d d.Counter = .ret ({ d with Counter := k }, none) := by
      rw [hf, hskip, hk2, Data.ComputeHashcash]
      have hcond : ({ d with Counter := k } : Data).Counter ≤ d.Counter ∨ d.Counter ≤ 0 :=
        Or.inr hmax
      have hq2 : isHashCorrect (sha1Hash ({ d with Counter := k } : Data).String)
          ({ d with Counter := k } : Data).ZerosCount = .ret true := hq
      simp only [hcond, if_true, hq2]
    rw [hC, hr]

/-- C15, on a payload claiming counter -1 whose hash there does not qualify: the server
searches counters -1, 0, 1 and serves the request. -/
theorem handleRequestResource_negative_counter_witness :
    isHashCorrect (sha1Hash (Data.String ⟨1, 1700000004, "127.0.0.1:5000", "MTIzNDU=", -1⟩)) 1
        = .ret false ∧
      handleRequestResource simpleFoldASCII goJSONCodec exServer
        ⟨MessageTypeRequestResource, negativeCounterPayload⟩ "127.0.0.1:5000"
        (.ok ⟨5, by decide⟩) 50 3 =
        .ret ({ exServer with cache := exServer.cache.Delete 12345 },
          (some ⟨MessageTypeResponseSource, quotes[5]⟩, none)) :=
  ⟨by decide,
    (handleRequestResource_negative_counter simpleFoldASCII goJSONCodec exServer
      ⟨MessageTypeRequestResource, negativeCounterPayload⟩ "127.0.0.1:5000"
      (.ok ⟨5, by decide⟩) 50 3 ⟨1, 1700000004, "127.0.0.1:5000", "MTIzNDU=", -1⟩
      (bytes "12345") 12345 (by decide) (by decide) (by decide) (by decide) (by decide)
      (by decide)).2.2.2 ⟨5, by decide⟩ 1 rfl (by decide) (by decide) (by decide) (by decide)
      (by intro j h1 h2; interval_cases j <;> decide) (by decide)⟩

/-- C16: for every hash and every zerosCount at or above 0, isHashCorrect returns: where it
takes the slice `hash[:zerosCount]` the bound lies between 0 and the length of the hash.  For
every negative zerosCount the length guard passes and the slice is out of range, a run-time
panic.  handleRequestResource hands the payload's ZerosCount over unchecked, so a payload
with a negative ZerosCount, a matching Client and a live nonce ends in that panic, whatever
its Counter is, and yields no error result. -/
theorem handleRequestResource_negative_zeros_panics (SimpleFold : Nat → Nat) (json : JSON)
    (s : Server) (msg : Message) (client : String)
    (randIdx : Except Error (Fin quotes.length)) (now : Int) (fuel : Nat) :
    (∀ (hash : String) (z : Int), 0 ≤ z →
      (∃ b, isHashCorrect hash z = .ret b) ∧ (¬ z > (len hash : Int) → 0 ≤ z ∧ z ≤ len hash)) ∧
    (∀ (hash : String) (z : Int), z < 0 →
      ¬ z > (len hash : Int) ∧ isHashCorrect hash z = .panic) ∧
    (∀ (d : Data) (bs : List Nat) (n : Int),
      json.Unmarshal msg.Payload = .ok d → EqualFold SimpleFold d.Client client = true →
      DecodeString d.Rand = .ok bs → Atoi bs = .ok n → s.cache.Get n now = true →
      d.ZerosCount < 0 → 0 < fuel →
      handleRequestResource SimpleFold json s msg client randIdx now fuel = .panic) := by
  refine ⟨?_, ?_, ?_⟩
  · intro hash z hz0
    exact ⟨isHashCorrect_nonneg_ret hash z hz0, fun h => ⟨hz0, by omega⟩⟩
  · intro hash z hz0
    exact ⟨by omega, isHashCorrect_neg hash z hz0⟩
  · intro d bs n hd hc hb ha hl hz hfuel
    rw [handleRequestResource_verified SimpleFold json s msg client randIdx now fuel d bs n
      hd hc hb ha hl]
    obtain ⟨f, rfl⟩ : ∃ f, fuel = f + 1 := ⟨fuel - 1, by omega⟩
    have hC : Data.ComputeHashcash (f + 1) d (if d.Counter = 0 then 1 else d.Counter) =
        .panic := by
      rw [Data.ComputeHashcash]
      simp only [verify_cond d.Counter, if_true, isHashCorrect_neg _ _ hz]
    rw [hC]

/-- C16, on a payload with ZerosCount -1. -/
theorem handleRequestResource_negative_zeros_panics_witness :
    handleRequestResource simpleFoldASCII goJSONCodec exServer
        ⟨MessageTypeRequestResource, negativeZerosPayload⟩ "127.0.0.1:5000"
        (.ok ⟨0, by decide⟩) 50 1 = .panic :=
  (handleRequestResource_negative_zeros_panics simpleFoldASCII goJSONCodec exServer
    ⟨MessageTypeRequestResource, negativeZerosPayload⟩ "127.0.0.1:5000"
    (.ok ⟨0, by decide⟩) 50 1).2.2 ⟨-1, 1700000004, "127.0.0.1:5000", "MTIzNDU=", 5⟩
    (bytes "12345") 12345 (by decide) (by decide) (by decide) (by decide) (by decide)
    (by decide) (by decide)

end server

end TcpServer
